import Mathlib

set_option maxRecDepth 8000

/-!
Verification development for the jedi-ci core: a shallow embedding of
`ci_action/library/cmake_rewrite.py` (bundle-line parser and manifest
rewriter) and `ci_action/library/pr_resolve.py` (PR directive extractor
and build-group resolver), with theorems settling the frozen claims.

Strings are modelled as `List Char`.  Each Python regular expression used
by the source is embedded as a dedicated deterministic matcher whose
semantics coincide with the Python one on the inputs the source feeds it
(single text lines, which contain no newline characters: every line fed
to `BundleLine` comes out of `str.splitlines`).  The greedy `.*`-headed
`re.match` patterns of `cmake_rewrite.py` pick the rightmost position at
which the tail pattern matches, which `searchRight` reproduces; the
directive patterns of `pr_resolve.py` are `^...$`-anchored in MULTILINE
mode and are applied line by line.
-/

abbrev Chars := List Char

/-- Python `\s` restricted to the ASCII whitespace characters. -/
def isWsPy (c : Char) : Bool :=
  c = ' ' || c = '\t' || c = '\n' || c = '\r' || c = '\x0b' || c = '\x0c'

/-- Character class `[a-zA-Z0-9._-]` (project names, branch/tag values,
and both capture groups of `BUILD_GROUP_LINK`). -/
def isNameChar (c : Char) : Bool :=
  (c.isAlpha || c.isDigit) || c = '.' || c = '_' || c = '-'

/-- Character class `[a-zA-Z0-9/:._-]` (GIT urls and SOURCE paths). -/
def isUriChar (c : Char) : Bool :=
  isNameChar c || c = '/' || c = ':'

/-- Character class `[a-zA-Z0-9/:#._-]` (build-group directive values and
branch-name directive values). -/
def isBgChar (c : Char) : Bool :=
  isUriChar c || c = '#'

def isQuoteCh (c : Char) : Bool :=
  c = '"' || c = '\''

/-- Strip an exact literal from the front of a list. -/
def stripLit : Chars → Chars → Option Chars
  | [], l => some l
  | _ :: _, [] => none
  | k :: ks, c :: cs => if c = k then stripLit ks cs else none

/-- Strip a literal from the front, comparing case-insensitively
(Python `re.IGNORECASE`, ASCII). -/
def stripLitCI : Chars → Chars → Option Chars
  | [], l => some l
  | _ :: _, [] => none
  | k :: ks, c :: cs => if c.toLower = k.toLower then stripLitCI ks cs else none

def startsWithLit (kw l : Chars) : Bool :=
  (stripLit kw l).isSome

def endsWithLit (kw l : Chars) : Bool :=
  startsWithLit kw.reverse l.reverse

/-- Substring test (Python `in` on strings). -/
def containsLit (kw : Chars) : Chars → Bool
  | [] => decide (kw = [])
  | c :: rest => startsWithLit kw (c :: rest) || containsLit kw rest

/-- Python `str.lower`, per character (all texts involved are ASCII). -/
def lowerChars (l : Chars) : Chars := l.map Char.toLower

/-- Python `str.splitlines` restricted to the `\n`, `\r\n` and `\r`
terminators that the sources care about. -/
def pySplitLinesGo (acc : Chars) : Chars → List Chars
  | [] => if acc.isEmpty then [] else [acc.reverse]
  | '\n' :: rest => acc.reverse :: pySplitLinesGo [] rest
  | '\r' :: '\n' :: rest => acc.reverse :: pySplitLinesGo [] rest
  | '\r' :: rest => acc.reverse :: pySplitLinesGo [] rest
  | c :: rest => pySplitLinesGo (c :: acc) rest

def pySplitLines (l : Chars) : List Chars := pySplitLinesGo [] l

/-- Index-decorated list (Python `enumerate`). -/
def enumF (n : Nat) : List α → List (Nat × α)
  | [] => []
  | a :: l => (n, a) :: enumF (n + 1) l

/-- A `.*`-headed `re.match`: try the tail pattern at the rightmost
position first, exactly as the greedy `.*` backtracks. -/
def searchRight (step : Chars → Option α) : Chars → Option α
  | [] => step []
  | c :: rest =>
    match searchRight step rest with
    | some v => some v
    | none => step (c :: rest)

/-- An unanchored `re.search`: try the pattern at the leftmost position
first. -/
def searchLeft (step : Chars → Option α) : Chars → Option α
  | [] => step []
  | c :: rest =>
    match step (c :: rest) with
    | some v => some v
    | none => searchLeft step rest

/- ------------------------------------------------------------------ -/
/- cmake_rewrite.py : BundleLinePart / BundleLine                      -/
/- ------------------------------------------------------------------ -/

/-- One token of an `ecbuild_bundle` call (`BundleLinePart`).  Attribute
parts carry no value; Python's `value=None, quote_char=''` defaults are
modelled by empty lists. -/
structure BundleLinePart where
  name : Chars
  is_attribute : Bool
  value : Chars := []
  quote_char : Chars := []
  deriving DecidableEq, Repr

/-- `BundleLinePart.__str__`. -/
def BundleLinePart.render (p : BundleLinePart) : Chars :=
  if p.is_attribute then p.name
  else p.name ++ ' ' :: (p.quote_char ++ p.value ++ p.quote_char)

/-- Tail of `_git_re` after the rightmost `GIT`:
`\s+["']([a-zA-Z0-9/:._-]+)["']\s`. -/
def stepGit (l : Chars) : Option Chars :=
  match stripLit ("GIT".data) l with
  | none => none
  | some l1 =>
    let w := l1.takeWhile isWsPy
    let l2 := l1.dropWhile isWsPy
    if w.isEmpty then none else
    match l2 with
    | [] => none
    | q :: l3 =>
      if isQuoteCh q then
        let run := l3.takeWhile isUriChar
        let l4 := l3.dropWhile isUriChar
        if run.isEmpty then none else
        match l4 with
        | [] => none
        | q2 :: l5 =>
          if isQuoteCh q2 then
            match l5 with
            | [] => none
            | c :: _ => if isWsPy c then some run else none
          else none
      else none

/-- Tail of `_source_re`: `SOURCE\s+([a-zA-Z0-9/:._-]+)\s`. -/
def stepSource (l : Chars) : Option Chars :=
  match stripLit ("SOURCE".data) l with
  | none => none
  | some l1 =>
    let w := l1.takeWhile isWsPy
    let l2 := l1.dropWhile isWsPy
    if w.isEmpty then none else
    let run := l2.takeWhile isUriChar
    let l3 := l2.dropWhile isUriChar
    if run.isEmpty then none else
    match l3 with
    | [] => none
    | c :: _ => if isWsPy c then some run else none

/-- Shared tail of `_branch_or_tag_re` after its keyword:
`\s+([a-zA-Z0-9._-]+)\s`. -/
def stepRefTail (l1 : Chars) : Option Chars :=
  let w := l1.takeWhile isWsPy
  let l2 := l1.dropWhile isWsPy
  if w.isEmpty then none else
  let run := l2.takeWhile isNameChar
  let l3 := l2.dropWhile isNameChar
  if run.isEmpty then none else
  match l3 with
  | [] => none
  | c :: _ => if isWsPy c then some run else none

/-- `_branch_or_tag_re` tail: `(BRANCH|TAG)\s+([a-zA-Z0-9._-]+)\s`. -/
def stepBranchTag (l : Chars) : Option (Chars × Chars) :=
  match stripLit ("BRANCH".data) l with
  | some l1 => (stepRefTail l1).map (fun v => (("BRANCH".data), v))
  | none =>
    match stripLit ("TAG".data) l with
    | some l1 => (stepRefTail l1).map (fun v => (("TAG".data), v))
    | none => none

/-- `_remote_rule_re` tail: `(UPDATE|NOREMOTE)\s`. -/
def stepRemote (l : Chars) : Option Chars :=
  match stripLit ("UPDATE".data) l with
  | some (c :: _) => if isWsPy c then some ("UPDATE".data) else none
  | some [] => none
  | none =>
    match stripLit ("NOREMOTE".data) l with
    | some (c :: _) => if isWsPy c then some ("NOREMOTE".data) else none
    | _ => none

/-- `_manual_and_recursive_re` tail: `(MANUAL|RECURSIVE)\s`.  The Python
pattern has a single capture group, so at most one flag is captured. -/
def stepFlag (l : Chars) : Option Chars :=
  match stripLit ("MANUAL".data) l with
  | some (c :: _) => if isWsPy c then some ("MANUAL".data) else none
  | some [] => none
  | none =>
    match stripLit ("RECURSIVE".data) l with
    | some (c :: _) => if isWsPy c then some ("RECURSIVE".data) else none
    | _ => none

/-- `_project_re`: `^\s*ecbuild_bundle\(\s*PROJECT\s+([a-zA-Z0-9._-]*)\s+`.
The group is `*`, so when the maximal name run is not followed by
whitespace the engine backtracks `\s+` and captures the empty name
(possible whenever at least two whitespace characters follow `PROJECT`). -/
def projectMatch (l : Chars) : Option Chars :=
  match stripLit ("ecbuild_bundle(".data) (l.dropWhile isWsPy) with
  | none => none
  | some l1 =>
    match stripLit ("PROJECT".data) (l1.dropWhile isWsPy) with
    | none => none
    | some l2 =>
      let k := l2.takeWhile isWsPy
      let l3 := l2.dropWhile isWsPy
      if k.isEmpty then none else
      let run := l3.takeWhile isNameChar
      let l4 := l3.dropWhile isNameChar
      match l4 with
      | c :: _ =>
        if isWsPy c then some run
        else if 2 ≤ k.length then some [] else none
      | [] => if 2 ≤ k.length then some [] else none

/-- `github_client.get_fullname_from_github_uri` followed by the tuple
split of `get_repo_tuple_from_github_uri`; the `split('/', 1)` raises
when no slash is present. -/
def get_repo_tuple_from_github_uri (repo_uri : Chars) : Except Chars (Chars × Chars) :=
  let path0 := repo_uri.drop ("https://github.com/".length)
  let path := if endsWithLit (".git".data) path0 then path0.take (path0.length - 4) else path0
  let org := path.takeWhile (fun c => c ≠ '/')
  match path.dropWhile (fun c => c ≠ '/') with
  | '/' :: repo => .ok (repo, org)
  | _ => .error ("not enough values to unpack".data)

/-- Parsed component declaration (`BundleLine`).  `content` is the raw
line; the remaining fields mirror the attributes set in `__init__`. -/
structure BundleLine where
  content : Chars
  project_name : Chars
  project : BundleLinePart
  source_reference_type : Chars
  source_reference : BundleLinePart
  github_org_repo_key : Option Chars
  version_ref_type : Option Chars
  version_ref : Option BundleLinePart
  remote_rule : Option BundleLinePart
  components : List BundleLinePart
  deriving DecidableEq, Repr

/-- The side computations of `BundleLine.__init__` that never raise:
branch/tag, remote rule and the single captured flag. -/
def bundleTailFields (content : Chars) :
    Option Chars × Option BundleLinePart × Option BundleLinePart × List BundleLinePart :=
  let bt := searchRight stepBranchTag content
  let vrt := bt.map (fun p => lowerChars p.1)
  let vr := bt.map (fun p => BundleLinePart.mk p.1 false p.2 [])
  let rr := (searchRight stepRemote content).map (fun n => BundleLinePart.mk n true [] [])
  let fl :=
    match searchRight stepFlag content with
    | some n => [BundleLinePart.mk n true [] []]
    | none => []
  (vrt, vr, rr, fl)

/-- The `github_org_repo_key` computation performed when the GIT value is
matched: lower-case the uri, test for `github.com`, and derive the key
(whose tuple split can itself raise). -/
def gitOrgRepoKey (url : Chars) : Except Chars (Option Chars) :=
  let git_uri := lowerChars url
  if containsLit ("github.com".data) git_uri then
    match get_repo_tuple_from_github_uri git_uri with
    | .error e => .error e
    | .ok (repo, org) => .ok (some (org ++ '/' :: repo))
  else .ok none

/-- Assemble the parsed record from the project name, the source clause
and the derived key; the remaining fields come from the tail matchers
run on the content. -/
def BundleLine.mkRecord (content pname srcType : Chars) (src : BundleLinePart)
    (key : Option Chars) : BundleLine :=
  ⟨content, pname, BundleLinePart.mk ("PROJECT".data) false pname [],
   srcType, src, key,
   (bundleTailFields content).1, (bundleTailFields content).2.1,
   (bundleTailFields content).2.2.1, (bundleTailFields content).2.2.2⟩

/-- `BundleLine.__init__` as a fallible constructor. -/
def BundleLine.parse (content : Chars) : Except Chars BundleLine :=
  match projectMatch content with
  | none => .error ("Invalid bundle; no project name".data)
  | some pname =>
    let gitM := searchRight stepGit content
    let srcM := searchRight stepSource content
    match gitM with
    | some url =>
      match gitOrgRepoKey url with
      | .error e => .error e
      | .ok key =>
        if srcM.isSome then
          .error ("Invalid bundle; git and source cannot both be present".data)
        else
          .ok (BundleLine.mkRecord content pname ("git".data)
                (BundleLinePart.mk ("GIT".data) false url (['"'])) key)
    | none =>
      match srcM with
      | some path =>
        .ok (BundleLine.mkRecord content pname ("source".data)
              (BundleLinePart.mk ("SOURCE".data) false path []) none)
      | none => .error ("Invalid bundle; no git or source".data)

def BundleLine.original_line (bl : BundleLine) : Chars := bl.content

def BundleLine.disabled_line (bl : BundleLine) : Chars := '#' :: ' ' :: bl.content

/-- Python's `str(None)` for the unconditionally rendered optional slots
of `rewrite_original`. -/
def renderOptPart : Option BundleLinePart → Chars
  | none => ("None".data)
  | some p => p.render

/-- Single-space join (`" ".join`). -/
def joinSp : List Chars → Chars
  | [] => []
  | [x] => x
  | x :: y :: rest => x ++ ' ' :: joinSp (y :: rest)

/-- `BundleLine.rewrite_original`: render the original components in the
fixed order; `version_ref`/`remote_rule` slots render even when unset. -/
def BundleLine.rewrite_original (bl : BundleLine) : Chars :=
  ("ecbuild_bundle( ".data) ++
    joinSp ([bl.project.render, bl.source_reference.render,
             renderOptPart bl.version_ref, renderOptPart bl.remote_rule] ++
            bl.components.map BundleLinePart.render) ++
    (" )".data)

/-- Python truthiness of an optional string argument. -/
def truthyArg : Option Chars → Bool
  | none => false
  | some s => !s.isEmpty

/-- The list of components rendered by `BundleLine.rewrite`. -/
def BundleLine.rewriteParts (bl : BundleLine) (git_repo branch tag : Option Chars) :
    List (Option BundleLinePart) :=
  let source_reference :=
    match git_repo, truthyArg git_repo with
    | some g, true => BundleLinePart.mk ("GIT".data) false g (['"'])
    | _, _ => bl.source_reference
  let vr0 : Option BundleLinePart :=
    match branch, truthyArg branch with
    | some b, true => some (BundleLinePart.mk ("BRANCH".data) false b [])
    | _, _ => none
  let vr1 : Option BundleLinePart :=
    match tag, truthyArg tag with
    | some t, true => some (BundleLinePart.mk ("TAG".data) false t [])
    | _, _ => vr0
  let remote_rule : Option BundleLinePart :=
    if truthyArg tag then none else bl.remote_rule
  let version_ref : Option BundleLinePart :=
    match vr1 with
    | some p => some p
    | none => bl.version_ref
  [some bl.project, some source_reference, version_ref] ++
    (match remote_rule with
     | some p => [some p]
     | none => []) ++
    bl.components.map some

/-- `BundleLine.rewrite`; raises when both `branch` and `tag` are
truthy. -/
def BundleLine.rewrite (bl : BundleLine) (git_repo branch tag : Option Chars) :
    Except Chars Chars :=
  if truthyArg branch && truthyArg tag then
    .error ("branch and tag cannot both be present".data)
  else
    .ok (("ecbuild_bundle( ".data) ++
      joinSp ((bl.rewriteParts git_repo branch tag).map renderOptPart) ++
      (" )".data))

/- ------------------------------------------------------------------ -/
/- cmake_rewrite.py : CMakeFile                                        -/
/- ------------------------------------------------------------------ -/

/-- `_ecbuild_bundle_re`: `\s*ecbuild_bundle\s*\(.*` under `re.match`. -/
def isBundleCallLine (l : Chars) : Bool :=
  match stripLit ("ecbuild_bundle".data) (l.dropWhile isWsPy) with
  | none => false
  | some r => startsWithLit ("(".data) (r.dropWhile isWsPy)

/-- Python-dict style assoc update: replace in place, else append. -/
def assocSet [DecidableEq κ] : List (κ × ν) → κ → ν → List (κ × ν)
  | [], k, v => [(k, v)]
  | (k0, v0) :: rest, k, v =>
    if k0 = k then (k0, v) :: rest else (k0, v0) :: assocSet rest k v

def assocGet [DecidableEq κ] : List (κ × ν) → κ → Option ν
  | [], _ => none
  | (k0, v0) :: rest, k => if k0 = k then some v0 else assocGet rest k

/-- `CMakeFile`: raw lines, the sparse index→`BundleLine` map and the
name index (later same-named declarations overwrite the name entry). -/
structure CMakeFile where
  lines : List Chars
  bundle_lines : List (Nat × BundleLine)
  bundle_line_names : List (Chars × BundleLine)
  deriving DecidableEq, Repr

/-- The loop body of `CMakeFile.__init__`. -/
def cmakeParseStep (st : CMakeFile) (il : Nat × Chars) : Except Chars CMakeFile :=
  if isBundleCallLine il.2 then
    match BundleLine.parse il.2 with
    | .error e => .error e
    | .ok bl =>
      .ok ⟨st.lines, st.bundle_lines ++ [(il.1, bl)],
           assocSet st.bundle_line_names bl.project_name bl⟩
  else .ok st

/-- `CMakeFile.__init__`. -/
def CMakeFile.parse (original_content : Chars) : Except Chars CMakeFile :=
  let lines := pySplitLines original_content
  List.foldlM cmakeParseStep ⟨lines, [], []⟩ (enumF 0 lines)

/-- Build-group commit info (`build_group_commit_map` values). -/
structure BuildGroupVersionRef where
  pr_id : Nat
  branch : Chars
  commit : Chars
  deriving DecidableEq, Repr

structure BuildGroupInfo where
  name_key : Chars
  uri : Chars
  version_ref : BuildGroupVersionRef
  deriving DecidableEq, Repr

/-- Per-line output of `_rewrite_file_implementation`'s loop. -/
def rewriteOneLine (cm : CMakeFile) (enabled_bundles : List Chars)
    (rewrite_rules : List (Chars × Chars))
    (build_group_commit_map : List (Chars × BuildGroupInfo))
    (il : Nat × Chars) : Except Chars Chars :=
  match assocGet cm.bundle_lines il.1 with
  | none => .ok (il.2 ++ ['\n'])
  | some bl =>
    if bl.project_name ∈ enabled_bundles then
      match (match bl.github_org_repo_key with
             | some key => if key.isEmpty then none else assocGet build_group_commit_map key
             | none => none) with
      | some info =>
        (bl.rewrite none none (some info.version_ref.commit)).map (· ++ ['\n'])
      | none =>
        match assocGet rewrite_rules bl.project_name with
        | some tag => (bl.rewrite none none (some tag)).map (· ++ ['\n'])
        | none => .ok (bl.original_line ++ ['\n'])
    else .ok (bl.disabled_line ++ ['\n'])

/-- `CMakeFile._rewrite_file_implementation`: the usage check followed by
the line loop; the output is the list of written lines. -/
def CMakeFile.rewrite_file_implementation (cm : CMakeFile)
    (enabled_bundles : List Chars) (rewrite_rules : List (Chars × Chars))
    (build_group_commit_map : List (Chars × BuildGroupInfo)) :
    Except Chars (List Chars) :=
  if !rewrite_rules.isEmpty && !build_group_commit_map.isEmpty then
    .error ("rewrite_rules and build_group_commit_map cannot both be provided".data)
  else
    (enumF 0 cm.lines).mapM
      (rewriteOneLine cm enabled_bundles rewrite_rules build_group_commit_map)

/- ------------------------------------------------------------------ -/
/- pr_resolve.py : directive extraction                                -/
/- ------------------------------------------------------------------ -/

/-- `^KEY\s?=\s?` (case-insensitive): strip the key, one optional
whitespace, `=`, one optional whitespace; return the value text.  Each
directive pattern is applied to one line of the newline-normalized body
(the patterns are `^...$`-anchored in MULTILINE mode; the corner case of
`\s?` itself consuming a newline is outside this model). -/
def dirAfterEq (key l : Chars) : Option Chars :=
  match stripLitCI key l with
  | none => none
  | some l1 =>
    match l1 with
    | [] => none
    | c :: rest =>
      if c = '=' then some rest
      else if isWsPy c then
        match rest with
        | '=' :: r2 => some r2
        | _ => none
      else none

/-- One optional whitespace after the `=` (the second `\s?`). -/
def dropOptWs (l : Chars) : Chars :=
  match l with
  | c :: rest => if isWsPy c then rest else l
  | [] => l

/-- Key and `=` stripping followed by the optional whitespace; `\s?` is
greedy, and since no value class contains whitespace consuming the single
whitespace character first is always right. -/
def dirValueText (key l : Chars) : Option Chars :=
  (dirAfterEq key l).map dropOptWs

/-- Value tail of `BUILD_GROUP_RE`: `([a-zA-Z0-9/:#._-]{10,70})\s*$`. -/
def bgValueTail (l : Chars) : Option Chars :=
  let run := l.takeWhile isBgChar
  let rest := l.dropWhile isBgChar
  if 10 ≤ run.length && run.length ≤ 70 && rest.all isWsPy then some run else none

/-- One line of `BUILD_GROUP_RE.findall`. -/
def buildGroupLineMatch (l : Chars) : Option Chars :=
  (dirValueText ("build-group".data) l).bind bgValueTail

/-- Value tail of `CACHE_BEHAVIOR_RE`: `(skip|rebuild)\s*$`, returning the
captured text in its original case. -/
def cacheValueTail (l : Chars) : Option Chars :=
  match stripLitCI ("skip".data) l with
  | some rest => if rest.all isWsPy then some (l.take 4) else none
  | none =>
    match stripLitCI ("rebuild".data) l with
    | some rest => if rest.all isWsPy then some (l.take 7) else none
    | none => none

def cacheLineMatch (l : Chars) : Option Chars :=
  (dirValueText ("jedi-ci-build-cache".data) l).bind cacheValueTail

/-- Value tail of `DRAFT_PR_RUN_RE`: `([a-zA-Z]{0,10})\s*$`. -/
def draftValueTail (l : Chars) : Option Chars :=
  let run := l.takeWhile Char.isAlpha
  let rest := l.dropWhile Char.isAlpha
  if run.length ≤ 10 && rest.all isWsPy then some run else none

def draftLineMatch (l : Chars) : Option Chars :=
  (dirValueText ("run-ci-on-draft".data) l).bind draftValueTail

/-- Value tail of `DEBUG_CI_RE` / `NEXT_CI_RE`: `t(rue)?\s*$`. -/
def trueValueTail (l : Chars) : Bool :=
  match stripLitCI ("t".data) l with
  | none => false
  | some r =>
    (match stripLitCI ("rue".data) r with
     | some r2 => r2.all isWsPy
     | none => false) || r.all isWsPy

def debugLineMatch (l : Chars) : Bool :=
  match dirValueText ("jedi-ci-debug".data) l with
  | some v => trueValueTail v
  | none => false

def nextCiLineMatch (l : Chars) : Bool :=
  match dirValueText ("jedi-ci-next".data) l with
  | some v => trueValueTail v
  | none => false

/-- Value tail of `CI_TEST_SELECT_RE`:
`(random|all|intel|gcc|gcc11)?\s*$`; an absent group yields the empty
capture that `findall` reports. -/
def selectAlt (w l : Chars) : Option Chars :=
  match stripLitCI w l with
  | some rest => if rest.all isWsPy then some (l.take w.length) else none
  | none => none

def selectValueTail (l : Chars) : Option Chars :=
  match selectAlt ("random".data) l with
  | some v => some v
  | none =>
  match selectAlt ("all".data) l with
  | some v => some v
  | none =>
  match selectAlt ("intel".data) l with
  | some v => some v
  | none =>
  match selectAlt ("gcc".data) l with
  | some v => some v
  | none =>
  match selectAlt ("gcc11".data) l with
  | some v => some v
  | none => if l.all isWsPy then some [] else none

def selectLineMatch (l : Chars) : Option Chars :=
  (dirValueText ("jedi-ci-test-select".data) l).bind selectValueTail

/-- Value tail of `JEDI_BUNDLE_BRANCH_RE` / `MANIFEST_BRANCH_RE`:
`([a-zA-Z0-9/:#._-]{1,70})?\s*$`. -/
def branchValueTail (l : Chars) : Option Chars :=
  let run := l.takeWhile isBgChar
  let rest := l.dropWhile isBgChar
  if 1 ≤ run.length && run.length ≤ 70 && rest.all isWsPy then some run
  else if l.all isWsPy then some []
  else none

def bundleBranchLineMatch (l : Chars) : Option Chars :=
  (dirValueText ("jedi-ci-bundle-branch".data) l).bind branchValueTail

def manifestBranchLineMatch (l : Chars) : Option Chars :=
  (dirValueText ("jedi-ci-manifest-branch".data) l).bind branchValueTail

/- ------------------------------------------------------------------ -/
/- pr_resolve.py : build-group reference parsing                       -/
/- ------------------------------------------------------------------ -/

def natOfDigits (l : Chars) : Nat :=
  l.foldl (fun acc c => 10 * acc + (c.toNat - '0'.toNat)) 0

/-- `BUILD_GROUP_LINK` tried at one position:
`([A-Za-z0-9._-]{3,30})/([A-Za-z0-9._-]{3,40})(?:#|/pull/)([0-9]{1,7})\s*$`. -/
def linkStep (l : Chars) : Option (Chars × Chars × Nat) :=
  let g1 := l.takeWhile isNameChar
  let r1 := l.dropWhile isNameChar
  if 3 ≤ g1.length && g1.length ≤ 30 then
    match r1 with
    | '/' :: r2 =>
      let g2 := r2.takeWhile isNameChar
      let r3 := r2.dropWhile isNameChar
      if 3 ≤ g2.length && g2.length ≤ 40 then
        let sep : Option Chars :=
          match r3 with
          | '#' :: r4 => some r4
          | _ => stripLit ("/pull/".data) r3
        match sep with
        | none => none
        | some r4 =>
          let ds := r4.takeWhile Char.isDigit
          let r5 := r4.dropWhile Char.isDigit
          if 1 ≤ ds.length && ds.length ≤ 7 && r5.all isWsPy then
            some (g1, g2, natOfDigits ds)
          else none
      else none
    | _ => none
  else none

/-- `BUILD_GROUP_LINK.search` (leftmost match). -/
def buildGroupLinkSearch (member : Chars) : Option (Chars × Chars × Nat) :=
  searchLeft linkStep member

/-- The loop body of `get_build_group_pr_map`. -/
def bgMapStep (pr_map : List (Chars × Nat)) (member : Chars) : List (Chars × Nat) :=
  match buildGroupLinkSearch member with
  | none => pr_map
  | some (owner, repo, pull_number) =>
    assocSet pr_map (lowerChars owner ++ '/' :: lowerChars repo) pull_number

/-- `get_build_group_pr_map`. -/
def get_build_group_pr_map (build_group_members : List Chars) : List (Chars × Nat) :=
  build_group_members.foldl bgMapStep []

/- ------------------------------------------------------------------ -/
/- pr_resolve.py : read_test_annotations                               -/
/- ------------------------------------------------------------------ -/

/-- The `TestAnnotations` named tuple.  `skip_cache` and `rebuild_cache`
are the json-boolean strings of the source. -/
structure TestAnnotations where
  build_group_map : List (Chars × Nat)
  skip_cache : Chars
  rebuild_cache : Chars
  run_tests : Bool
  debug_mode : Bool
  next_ci_suffix : Chars
  test_select : Chars
  jedi_bundle_branch : Chars
  jedi_ci_manifest_branch : Chars
  deriving DecidableEq, Repr

/-- `read_test_annotations`, with the pull-request body and draft flag
taken from the caller-supplied `pr_payload` (the `pr_payload is None`
path performs a network fetch and is outside this model).  The function
is total: no directive line can make it raise. -/
def read_test_annotations (pr_body : Chars) (draft : Bool) : TestAnnotations :=
  let lines := pySplitLines pr_body
  let build_group_members := lines.filterMap buildGroupLineMatch
  let build_group_pr_map := get_build_group_pr_map build_group_members
  let cache_behavior := lines.filterMap cacheLineMatch
  let skip_rebuild : Chars × Chars :=
    match cache_behavior with
    | v :: _ =>
      if lowerChars v = ("skip".data) then (("true".data), ("false".data))
      else if lowerChars v = ("rebuild".data) then (("true".data), ("true".data))
      else (("false".data), ("false".data))
    | [] => (("false".data), ("false".data))
  let run_tests :=
    if !draft then true
    else
      match lines.filterMap draftLineMatch with
      | v :: _ =>
        lowerChars v = ("t".data) || lowerChars v = ("true".data) ||
          lowerChars v = ("yes".data)
      | [] => false
  let debug_mode := lines.any debugLineMatch
  let next_ci := lines.any nextCiLineMatch
  let next_ci_suffix : Chars := if next_ci then ("-next".data) else []
  let test_select : Chars :=
    match lines.filterMap selectLineMatch with
    | v :: _ => v
    | [] => ("random".data)
  let bundle_state : Chars × Chars × Chars :=
    match lines.filterMap bundleBranchLineMatch with
    | v :: _ => (v, ("true".data), ("false".data))
    | [] => ([], skip_rebuild.1, skip_rebuild.2)
  let manifest_state : Chars × Chars × Chars :=
    match lines.filterMap manifestBranchLineMatch with
    | v :: _ => (v, ("true".data), ("false".data))
    | [] => ([], bundle_state.2.1, bundle_state.2.2)
  { build_group_map := build_group_pr_map
    skip_cache := manifest_state.2.1
    rebuild_cache := manifest_state.2.2
    run_tests := run_tests
    debug_mode := debug_mode
    next_ci_suffix := next_ci_suffix
    test_select := test_select
    jedi_bundle_branch := bundle_state.1
    jedi_ci_manifest_branch := manifest_state.1 }

/- ------------------------------------------------------------------ -/
/- pr_resolve.py : gather_pr_group                                     -/
/- ------------------------------------------------------------------ -/

/-- Error modes of the external repository service (spec section 6). -/
inductive LookupError where
  | notFound
  | forbidden
  | rateLimited
  deriving DecidableEq, Repr

/-- Errors escaping `gather_pr_group`: either a propagated service
failure or a Python-level error (`KeyError`/`NameError`/`ValueError`). -/
inductive GatherError where
  | service (e : LookupError)
  | pyErr (msg : Chars)
  deriving DecidableEq, Repr

structure PullHead where
  ref : Chars
  sha : Chars
  deriving DecidableEq, Repr

/-- The pull-request data consumed from the service (`pr.number`,
`pr.head.ref`, `pr.head.sha`). -/
structure PullInfo where
  number : Nat
  head : PullHead
  deriving DecidableEq, Repr

structure BranchCommit where
  sha : Chars
  deriving DecidableEq, Repr

/-- The branch data consumed from the service (`branch.commit.sha`). -/
structure BranchInfo where
  commit : BranchCommit
  deriving DecidableEq, Repr

/-- The external repository service consumed by the resolver
(`GITHUB_CLIENT` plus the repository handles it returns). -/
structure RepoService where
  get_repository : Chars → Chars → Except LookupError Unit
  get_pull : Chars → Chars → Nat → Except LookupError PullInfo
  get_branch : Chars → Chars → Chars → Except LookupError BranchInfo

/-- One entry of `test_manifest["repositories"]`; absent json keys are
`none`. -/
structure ManifestEntry where
  uri : Chars
  name : Chars
  branch : Option Chars := none
  release_tag : Option Chars := none
  deriving DecidableEq, Repr

structure TestManifest where
  repositories : List ManifestEntry
  deriving DecidableEq, Repr

/-- The version reference of one gathered group entry; `pr_id` is `none`
where Python writes the empty string, and `commit` is `none` where the
entry carries no commit key. -/
structure GroupVersionRef where
  pr_id : Option Nat
  branch : Chars
  commit : Option Chars
  deriving DecidableEq, Repr

structure GroupEntry where
  name : Chars
  uri : Chars
  version_ref : GroupVersionRef
  deriving DecidableEq, Repr

def INTEGRATED_ORG_WHITELIST : List Chars :=
  [("jcsda-internal".data), ("jcsda".data), ("geos-esm".data)]

/-- `_validate_repo_uri`: raises only when the uri does not start with
the GitHub prefix yet ends in `.git` (the raise path itself trips a
`NameError` on the undefined `repo_name`; either way it raises). -/
def validate_repo_uri_fails (repo_uri : Chars) : Bool :=
  !startsWithLit ("https://github.com/".data) repo_uri &&
    endsWithLit (".git".data) repo_uri

/-- `_repo_tuple_from_uri`: slice off the GitHub prefix and an
unconditional 4-character `.git` suffix, then split at the first slash;
splitting without a slash raises. -/
def repo_tuple_from_uri (repo_uri : Chars) : Except GatherError (Chars × Chars) :=
  let tail20 := repo_uri.drop ("https://github.com/".length)
  let full_repo := tail20.take (tail20.length - 4)
  let org := full_repo.takeWhile (fun c => c ≠ '/')
  match full_repo.dropWhile (fun c => c ≠ '/') with
  | '/' :: repo => .ok (repo, org)
  | _ => .error (.pyErr ("not enough values to unpack".data))

/-- State threaded through the repository loop: the gathered group plus
the last `(ref_name, commit_sha)` pair assigned by a default-branch
iteration (Python leaks those locals across iterations; reading them
before any assignment raises `NameError`). -/
abbrev GatherState := List GroupEntry × Option (Chars × Chars)

/-- One iteration of the repository loop of `gather_pr_group`. -/
def gatherStep (svc : RepoService) (trigger_repo_key : Chars) (curr_pr_id : Nat)
    (pr_group_map : List (Chars × Nat)) (st : GatherState) (entry : ManifestEntry) :
    Except GatherError GatherState :=
  if validate_repo_uri_fails entry.uri then
    .error (.pyErr ("name repo_name is not defined".data))
  else
    match repo_tuple_from_uri entry.uri with
    | .error e => .error e
    | .ok (repo_name, org) =>
      let repo_name_key := lowerChars org ++ '/' :: lowerChars repo_name
      if lowerChars org ∉ INTEGRATED_ORG_WHITELIST then
        match entry.branch with
        | none => .error (.pyErr ("KeyError: branch".data))
        | some b =>
          .ok (st.1 ++ [⟨entry.name, entry.uri, ⟨none, b, none⟩⟩], st.2)
      else
        match svc.get_repository repo_name org with
        | .error e => .error (.service e)
        | .ok _ =>
          if repo_name_key = trigger_repo_key then
            match svc.get_pull repo_name org curr_pr_id with
            | .error e => .error (.service e)
            | .ok pr =>
              .ok (st.1 ++ [⟨entry.name, entry.uri,
                    ⟨some pr.number, pr.head.ref, some pr.head.sha⟩⟩], st.2)
          else
            match assocGet pr_group_map repo_name_key with
            | some pr_number =>
              match svc.get_pull repo_name org pr_number with
              | .error e => .error (.service e)
              | .ok pr =>
                .ok (st.1 ++ [⟨entry.name, entry.uri,
                      ⟨some pr.number, pr.head.ref, some pr.head.sha⟩⟩], st.2)
            | none =>
              match entry.branch with
              | some b =>
                match svc.get_branch repo_name org b with
                | .error e => .error (.service e)
                | .ok default_branch =>
                  let ref_name := ("refs/heads/".data) ++ b
                  .ok (st.1 ++ [⟨entry.name, entry.uri,
                        ⟨none, ref_name, some default_branch.commit.sha⟩⟩],
                       some (ref_name, default_branch.commit.sha))
              | none =>
                if entry.release_tag.isSome then .ok st
                else
                  match st.2 with
                  | some (ref_name, commit_sha) =>
                    .ok (st.1 ++ [⟨entry.name, entry.uri,
                          ⟨none, ref_name, some commit_sha⟩⟩], st.2)
                  | none => .error (.pyErr ("name ref_name is not defined".data))

/-- `gather_pr_group`: the repository loop; any raise aborts the whole
call, so the returned group exists only when every iteration succeeded. -/
def gather_pr_group (svc : RepoService) (test_manifest : TestManifest)
    (trigger_repo_key : Chars) (curr_pr_id : Nat)
    (pr_group_map : List (Chars × Nat)) : Except GatherError (List GroupEntry) :=
  (test_manifest.repositories.foldlM
      (gatherStep svc trigger_repo_key curr_pr_id pr_group_map)
      (([], none) : GatherState)).map (fun st => st.1)

/-- The external lookups that `gather_pr_group` performs for one manifest
entry, in source order; iterations that raise before reaching the
service (or never call it) perform none. -/
def entry_lookup (svc : RepoService) (trigger_repo_key : Chars) (curr_pr_id : Nat)
    (pr_group_map : List (Chars × Nat)) (entry : ManifestEntry) :
    Except LookupError Unit :=
  if validate_repo_uri_fails entry.uri then .ok ()
  else
    match repo_tuple_from_uri entry.uri with
    | .error _ => .ok ()
    | .ok (repo_name, org) =>
      let repo_name_key := lowerChars org ++ '/' :: lowerChars repo_name
      if lowerChars org ∉ INTEGRATED_ORG_WHITELIST then .ok ()
      else
        match svc.get_repository repo_name org with
        | .error e => .error e
        | .ok _ =>
          if repo_name_key = trigger_repo_key then
            (svc.get_pull repo_name org curr_pr_id).map (fun _ => ())
          else
            match assocGet pr_group_map repo_name_key with
            | some pr_number => (svc.get_pull repo_name org pr_number).map (fun _ => ())
            | none =>
              match entry.branch with
              | some b => (svc.get_branch repo_name org b).map (fun _ => ())
              | none => .ok ()

/- ------------------------------------------------------------------ -/
/- Generic lemmas                                                      -/
/- ------------------------------------------------------------------ -/

theorem enumF_get? (l : List α) : ∀ n i, (enumF n l).get? i = (l.get? i).map (fun a => (n + i, a)) := by
  induction l with
  | nil => intro n i; simp [enumF]
  | cons a t ih =>
    intro n i
    cases i with
    | zero => simp [enumF]
    | succ j =>
      have harith : n + 1 + j = n + (j + 1) := by omega
      calc (enumF n (a :: t)).get? (j + 1) = (enumF (n + 1) t).get? j := rfl
        _ = (t.get? j).map (fun x => (n + 1 + j, x)) := ih (n + 1) j
        _ = ((a :: t).get? (j + 1)).map (fun x => (n + (j + 1), x)) := by rw [harith]; rfl

theorem enumF_length (l : List α) : ∀ n, (enumF n l).length = l.length := by
  induction l with
  | nil => intro n; rfl
  | cons a t ih => intro n; simp [enumF, ih]

theorem mem_enumF (l : List α) : ∀ n p, p ∈ enumF n l → n ≤ p.1 ∧ l.get? (p.1 - n) = some p.2 := by
  induction l with
  | nil => intro n p hp; simp [enumF] at hp
  | cons a t ih =>
    intro n p hp
    simp only [enumF, List.mem_cons] at hp
    rcases hp with hp | hp
    · subst hp; simp
    · obtain ⟨h1, h2⟩ := ih (n + 1) p hp
      refine ⟨Nat.le_of_succ_le h1, ?_⟩
      have hd : p.1 - n = (p.1 - (n + 1)) + 1 := by omega
      rw [hd]
      simpa using h2

theorem assocGet_mem [DecidableEq κ] (l : List (κ × ν)) (k : κ) (v : ν)
    (h : assocGet l k = some v) : (k, v) ∈ l := by
  induction l with
  | nil => simp [assocGet] at h
  | cons p t ih =>
    obtain ⟨k0, v0⟩ := p
    by_cases hk : k0 = k
    · subst hk
      simp [assocGet] at h
      subst h
      exact List.mem_cons_self _ _
    · simp [assocGet, hk] at h
      exact List.mem_cons_of_mem _ (ih h)

theorem assocGet_assocSet_isSome [DecidableEq κ] (l : List (κ × ν)) (k key : κ) (v : ν) :
    (assocGet (assocSet l k v) key).isSome = true ↔
      key = k ∨ (assocGet l key).isSome = true := by
  induction l with
  | nil =>
    simp only [assocSet, assocGet]
    by_cases hk : k = key
    · subst hk; simp
    · rw [if_neg hk]
      simp only [Option.isSome_none, Bool.false_eq_true, false_iff]
      rintro (h | h)
      · exact hk h.symm
      · exact h.elim
  | cons p t ih =>
    obtain ⟨k0, v0⟩ := p
    by_cases h0 : k0 = k
    · subst h0
      by_cases h1 : k0 = key
      · subst h1; simp [assocSet, assocGet]
      · simp [assocSet, assocGet, h1]
        exact fun h => absurd h.symm h1
    · by_cases h1 : k0 = key
      · subst h1
        simp [assocSet, assocGet, h0, fun h => h0 (h : k0 = k)]
      · simp [assocSet, assocGet, h0, h1, ih]

theorem mapM_ok_of_pointwise {f : α → Except ε β} {g : α → β}
    (hf : ∀ x, f x = .ok (g x)) : ∀ l : List α, l.mapM f = .ok (l.map g) := by
  intro l
  induction l with
  | nil => rfl
  | cons a t ih =>
    rw [List.mapM_cons, hf a, ih]
    rfl

theorem foldlM_error_of_mem {step : σ → α → Except ε σ} (l : List α) (e : α)
    (he : e ∈ l) (h : ∀ st, ∃ er, step st e = .error er) :
    ∀ st0, ∃ er, List.foldlM step st0 l = .error er := by
  induction l with
  | nil => simp at he
  | cons a t ih =>
    intro st0
    rcases List.mem_cons.mp he with rfl | hmem
    · obtain ⟨er, her⟩ := h st0
      exact ⟨er, by rw [List.foldlM_cons, her]; rfl⟩
    · cases hs : step st0 a with
      | error er => exact ⟨er, by rw [List.foldlM_cons, hs]; rfl⟩
      | ok st1 =>
        obtain ⟨er, her⟩ := ih hmem st1
        exact ⟨er, by rw [List.foldlM_cons, hs]; simpa using her⟩

/- ------------------------------------------------------------------ -/
/- Claim C10                                                           -/
/- ------------------------------------------------------------------ -/

/-- Claim C10: whenever a `jedi-ci-bundle-branch` or
`jedi-ci-manifest-branch` directive matches in the PR body,
`read_test_annotations` returns `skip_cache = "true"` and
`rebuild_cache = "false"`, even if the body also carries
`jedi-ci-build-cache=rebuild`; consequently `rebuild_cache = "true"`
in a returned `TestAnnotations` always implies `skip_cache = "true"`. -/
theorem c10_branch_overrides_cache (pr_body : Chars) (draft : Bool) :
    (((pySplitLines pr_body).filterMap bundleBranchLineMatch ≠ [] ∨
        (pySplitLines pr_body).filterMap manifestBranchLineMatch ≠ []) →
      (read_test_annotations pr_body draft).skip_cache = ("true".data) ∧
        (read_test_annotations pr_body draft).rebuild_cache = ("false".data)) ∧
    ((read_test_annotations pr_body draft).rebuild_cache = ("true".data) →
      (read_test_annotations pr_body draft).skip_cache = ("true".data)) := by
  simp only [read_test_annotations]
  cases hm : (pySplitLines pr_body).filterMap manifestBranchLineMatch with
  | cons v t => simp [hm]
  | nil =>
    cases hb : (pySplitLines pr_body).filterMap bundleBranchLineMatch with
    | cons v t => simp [hb, hm]
    | nil =>
      simp only [hb, hm]
      refine ⟨fun h => (h.elim (fun h1 => absurd rfl h1) (fun h2 => absurd rfl h2)), ?_⟩
      cases hc : (pySplitLines pr_body).filterMap cacheLineMatch with
      | nil => intro h; simp at h
      | cons v t =>
        by_cases hskip : lowerChars v = ("skip".data)
        · simp [hskip]
        · by_cases hreb : lowerChars v = ("rebuild".data)
          · simp [hskip, hreb]
          · simp [hskip, hreb]

/-- Witness for C10 at a body combining `jedi-ci-build-cache=rebuild`
with `jedi-ci-bundle-branch=topic`. -/
theorem c10_branch_overrides_cache_witness :
    (read_test_annotations
        ("jedi-ci-build-cache=rebuild\njedi-ci-bundle-branch=topic".data)
        false).skip_cache = ("true".data) ∧
      (read_test_annotations
        ("jedi-ci-build-cache=rebuild\njedi-ci-bundle-branch=topic".data)
        false).rebuild_cache = ("false".data) :=
  (c10_branch_overrides_cache
      ("jedi-ci-build-cache=rebuild\njedi-ci-bundle-branch=topic".data) false).1
    (Or.inl (by decide))

/- ------------------------------------------------------------------ -/
/- Claim C1                                                            -/
/- ------------------------------------------------------------------ -/

/-- The lower-cased `org/repo` key a build-group member contributes, if
its reference parses. -/
def memberKey (member : Chars) : Option Chars :=
  (buildGroupLinkSearch member).map
    (fun t => lowerChars t.1 ++ '/' :: lowerChars t.2.1)

theorem get_build_group_pr_map_keys_aux (members : List Chars) :
    ∀ (acc : List (Chars × Nat)) (key : Chars),
      (assocGet (members.foldl bgMapStep acc) key).isSome = true ↔
        (assocGet acc key).isSome = true ∨ ∃ m ∈ members, memberKey m = some key := by
  induction members with
  | nil => intro acc key; simp
  | cons m ms ih =>
    intro acc key
    rw [List.foldl_cons]
    cases hm : buildGroupLinkSearch m with
    | none =>
      rw [show bgMapStep acc m = acc by simp [bgMapStep, hm]]
      rw [ih]
      simp [memberKey, hm]
    | some p =>
      obtain ⟨o, r, n⟩ := p
      rw [show bgMapStep acc m =
            assocSet acc (lowerChars o ++ '/' :: lowerChars r) n by
          simp [bgMapStep, hm]]
      rw [ih]
      rw [assocGet_assocSet_isSome]
      constructor
      · rintro ((h | h) | h)
        · exact Or.inr ⟨m, List.mem_cons_self m ms, by simp [memberKey, hm, h]⟩
        · exact Or.inl h
        · obtain ⟨x, hx, hk⟩ := h
          exact Or.inr ⟨x, List.mem_cons_of_mem _ hx, hk⟩
      · rintro (h | ⟨x, hx, hk⟩)
        · exact Or.inl (Or.inr h)
        · rcases List.mem_cons.mp hx with rfl | hx2
          · simp only [memberKey, hm] at hk
            simp at hk
            exact Or.inl (Or.inl hk.symm)
          · exact Or.inr ⟨x, hx2, hk⟩

/-- Key membership of `get_build_group_pr_map`. -/
theorem get_build_group_pr_map_keys (members : List Chars) (key : Chars) :
    (assocGet (get_build_group_pr_map members) key).isSome = true ↔
      ∃ m ∈ members, memberKey m = some key := by
  rw [get_build_group_pr_map, get_build_group_pr_map_keys_aux]
  simp [assocGet]

/-- Counterexample for claim C1: on a PR body with no directives at all,
the build-group map returned by `read_test_annotations` is empty, so it
does not contain a self-pin entry for the triggering repository
`jcsda-internal/oops` (nor for any other); `read_test_annotations` has
no `testmode` parameter and never inserts the trigger pair. -/
theorem c1_no_self_pin_counterexample :
    (read_test_annotations [] false).build_group_map = [] ∧
      assocGet (read_test_annotations [] false).build_group_map
        ("jcsda-internal/oops".data) = none := by
  constructor <;> rfl

/-- Claim C1 (amended): the build-group map returned by
`read_test_annotations` contains a key exactly when some `build-group`
directive line of the body parses to a reference with that lower-cased
`org/repo` key; the triggering repository/PR pair is never inserted
(self-reference handling lives in `gather_pr_group` instead). -/
theorem c1_build_group_map_keys (pr_body : Chars) (draft : Bool) (key : Chars) :
    (assocGet (read_test_annotations pr_body draft).build_group_map key).isSome = true ↔
      ∃ m ∈ (pySplitLines pr_body).filterMap buildGroupLineMatch,
        memberKey m = some key := by
  have h : (read_test_annotations pr_body draft).build_group_map =
      get_build_group_pr_map ((pySplitLines pr_body).filterMap buildGroupLineMatch) := rfl
  rw [h, get_build_group_pr_map_keys]

/- ------------------------------------------------------------------ -/
/- Claim C8                                                            -/
/- ------------------------------------------------------------------ -/

/-- Counterexample for claim C8: `read_test_annotations` recognizes no
deprecated directive key and has no error path at all (it is a total
function); in particular `jedi-ci-build-cache=rebuild` — the key/value
the spec's design notes name as the deprecated candidate — is processed
as a supported value and mapped to the cache-rebuild flag instead of
raising a user-facing error. -/
theorem c8_deprecated_key_counterexample :
    (read_test_annotations ("jedi-ci-build-cache=rebuild".data) false).rebuild_cache
        = ("true".data) ∧
      (read_test_annotations ("jedi-ci-build-cache=rebuild".data) false).skip_cache
        = ("true".data) := by
  constructor <;> rfl

/-- Claim C8 (amended): no directive key is deprecated and the extractor
never raises; a `jedi-ci-build-cache=rebuild` directive (first cache
match, no branch-directive override) is supported and yields
`rebuild_cache = "true"` and `skip_cache = "true"`. -/
theorem c8_rebuild_supported (pr_body : Chars) (draft : Bool) (v : Chars) (t : List Chars)
    (hc : (pySplitLines pr_body).filterMap cacheLineMatch = v :: t)
    (hv : lowerChars v = ("rebuild".data))
    (hb : (pySplitLines pr_body).filterMap bundleBranchLineMatch = [])
    (hm : (pySplitLines pr_body).filterMap manifestBranchLineMatch = []) :
    (read_test_annotations pr_body draft).rebuild_cache = ("true".data) ∧
      (read_test_annotations pr_body draft).skip_cache = ("true".data) := by
  have hskip : lowerChars v ≠ ("skip".data) := by rw [hv]; decide
  simp only [read_test_annotations, hc, hb, hm]
  simp [hskip, hv]

/-- Witness for the amended C8 at a concrete rebuild directive (upper
case, exercising the case-insensitive match). -/
theorem c8_rebuild_supported_witness :
    (read_test_annotations ("jedi-ci-build-cache=REBUILD".data) false).rebuild_cache
        = ("true".data) ∧
      (read_test_annotations ("jedi-ci-build-cache=REBUILD".data) false).skip_cache
        = ("true".data) :=
  c8_rebuild_supported ("jedi-ci-build-cache=REBUILD".data) false
    ("REBUILD".data) [] (by decide) (by decide) (by decide) (by decide)

/- ------------------------------------------------------------------ -/
/- Claim C9                                                            -/
/- ------------------------------------------------------------------ -/

/-- Claim C9 (code bug): on a declaration line carrying both `MANUAL`
and `RECURSIVE`, the parser records only the rightmost flag —
`_manual_and_recursive_re` has a single capture group, so
`match.groups()` never yields both — and the re-serialized line carries
only `RECURSIVE`, contradicting the grammar of the module docstring and
the comment above the flag-parsing code. -/
theorem c9_manual_flag_dropped :
    (BundleLine.parse
        ("ecbuild_bundle( PROJECT p GIT \"https://github.com/o/r.git\" MANUAL RECURSIVE )".data)).map
        (fun bl => bl.components) =
      .ok [⟨("RECURSIVE".data), true, [], []⟩] ∧
    (BundleLine.parse
        ("ecbuild_bundle( PROJECT p GIT \"https://github.com/o/r.git\" MANUAL RECURSIVE )".data)).map
        (fun bl => bl.rewrite_original) =
      .ok ("ecbuild_bundle( PROJECT p GIT \"https://github.com/o/r.git\" None None RECURSIVE )".data) := by
  constructor <;> rfl

/- ------------------------------------------------------------------ -/
/- Claim C2                                                            -/
/- ------------------------------------------------------------------ -/

theorem gatherStep_error_of_lookup_error (svc : RepoService) (tk : Chars) (curr : Nat)
    (map : List (Chars × Nat)) (entry : ManifestEntry) (err : LookupError)
    (h : entry_lookup svc tk curr map entry = .error err) :
    ∀ st, gatherStep svc tk curr map st entry = .error (.service err) := by
  intro st
  simp only [entry_lookup] at h
  simp only [gatherStep]
  by_cases hv : validate_repo_uri_fails entry.uri = true
  · rw [if_pos hv] at h
    exact absurd h (by simp)
  · rw [if_neg hv] at h
    rw [if_neg hv]
    cases ht : repo_tuple_from_uri entry.uri with
    | error e => rw [ht] at h; simp at h
    | ok pr =>
      obtain ⟨repo_name, org⟩ := pr
      simp only [ht] at h ⊢
      by_cases hw : lowerChars org ∈ INTEGRATED_ORG_WHITELIST
      · simp only [hw, not_true_eq_false, if_false] at h ⊢
        cases hr : svc.get_repository repo_name org with
        | error e =>
          simp only [hr] at h ⊢
          cases h
          rfl
        | ok u =>
          simp only [hr] at h ⊢
          by_cases hk : lowerChars org ++ '/' :: lowerChars repo_name = tk
        
          · simp only [hk, if_pos rfl] at h ⊢
            cases hp : svc.get_pull repo_name org curr with
            | error e =>
              simp only [hp, Except.map] at h
              cases h
              rfl
            | ok p => simp [hp, Except.map] at h
          · rw [if_neg hk] at h ⊢
            cases hg : assocGet map (lowerChars org ++ '/' :: lowerChars repo_name) with
            | some n =>
              simp only [hg] at h ⊢
              cases hp : svc.get_pull repo_name org n with
              | error e =>
                simp only [hp, Except.map] at h
                cases h
                rfl
              | ok p => simp [hp, Except.map] at h
            | none =>
              simp only [hg] at h ⊢
              cases hb : entry.branch with
              | some b =>
                simp only [hb] at h ⊢
                cases hbr : svc.get_branch repo_name org b with
                | error e =>
                  simp only [hbr, Except.map] at h
                  cases h
                  rfl
                | ok d => simp [hbr, Except.map] at h
              | none => simp [hb] at h
      · simp only [hw, not_false_eq_true, if_true] at h ⊢
        simp at h

/-- Claim C2: if the external repository-service lookup performed for any
single manifest entry fails, `gather_pr_group` as a whole fails: it never
returns a group, partial or otherwise (the error carries no entries). -/
theorem c2_lookup_failure_fails_resolution (svc : RepoService) (tm : TestManifest)
    (tk : Chars) (curr : Nat) (map : List (Chars × Nat)) (entry : ManifestEntry)
    (err : LookupError) (hmem : entry ∈ tm.repositories)
    (hfail : entry_lookup svc tk curr map entry = .error err) :
    ∀ g, gather_pr_group svc tm tk curr map ≠ .ok g := by
  intro g hg
  have hstep := gatherStep_error_of_lookup_error svc tk curr map entry err hfail
  obtain ⟨er, her⟩ :=
    foldlM_error_of_mem tm.repositories entry hmem
      (fun st => ⟨GatherError.service err, hstep st⟩) (([], none) : GatherState)
  rw [gather_pr_group, her] at hg
  simp [Except.map] at hg

/-- Service whose pull-request lookups are all not-found. -/
def svcPullNotFound : RepoService :=
  ⟨fun _ _ => .ok (), fun _ _ _ => .error .notFound, fun _ _ _ => .ok ⟨⟨[]⟩⟩⟩

/-- A two-entry manifest for the witness: the C2 scenario with two
requested PR lookups of which one (oops) fails with not-found. -/
def entryOops : ManifestEntry :=
  ⟨("https://github.com/JCSDA-internal/oops.git".data), ("oops".data),
    some ("develop".data), none⟩

def entryUfo : ManifestEntry :=
  ⟨("https://github.com/JCSDA-internal/ufo.git".data), ("ufo".data),
    some ("develop".data), none⟩

/-- Witness for C2: with the not-found service, the lookup for the oops
entry fails and `gather_pr_group` over the two-entry manifest yields no
group at all. -/
theorem c2_lookup_failure_witness :
    entry_lookup svcPullNotFound ("jcsda-internal/trigger".data) 3
        [(("jcsda-internal/oops".data), 7), (("jcsda-internal/ufo".data), 9)] entryOops
      = .error .notFound ∧
    gather_pr_group svcPullNotFound ⟨[entryOops, entryUfo]⟩
        ("jcsda-internal/trigger".data) 3
        [(("jcsda-internal/oops".data), 7), (("jcsda-internal/ufo".data), 9)]
      ≠ .ok [] :=
  ⟨rfl,
    c2_lookup_failure_fails_resolution svcPullNotFound ⟨[entryOops, entryUfo]⟩
      ("jcsda-internal/trigger".data) 3
      [(("jcsda-internal/oops".data), 7), (("jcsda-internal/ufo".data), 9)]
      entryOops .notFound (by simp) rfl []⟩

/- ------------------------------------------------------------------ -/
/- Parse inversion and rewrite loop infrastructure                     -/
/- ------------------------------------------------------------------ -/

/-- Inversion of a successful `BundleLine.parse`. -/
theorem BundleLine.parse_cases_of_ok (content : Chars) (bl : BundleLine)
    (h : BundleLine.parse content = .ok bl) :
    ∃ pname, projectMatch content = some pname ∧
      ((∃ url key, searchRight stepGit content = some url ∧
          searchRight stepSource content = none ∧
          gitOrgRepoKey url = .ok key ∧
          bl = BundleLine.mkRecord content pname ("git".data)
                (BundleLinePart.mk ("GIT".data) false url (['"'])) key) ∨
       (∃ path, searchRight stepGit content = none ∧
          searchRight stepSource content = some path ∧
          bl = BundleLine.mkRecord content pname ("source".data)
                (BundleLinePart.mk ("SOURCE".data) false path []) none)) := by
  simp only [BundleLine.parse] at h
  cases hp : projectMatch content with
  | none => rw [hp] at h; exact absurd h (by simp)
  | some pname =>
    rw [hp] at h
    refine ⟨pname, rfl, ?_⟩
    cases hg : searchRight stepGit content with
    | some url =>
      simp only [hg] at h
      cases hkey : gitOrgRepoKey url with
      | error e => simp [hkey] at h
      | ok key =>
        simp only [hkey] at h
        cases hs : searchRight stepSource content with
        | some path => simp [hs] at h
        | none =>
          simp only [hs, Option.isSome_none, Bool.false_eq_true, if_false] at h
          cases h
          exact Or.inl ⟨url, key, rfl, rfl, hkey, rfl⟩
    | none =>
      simp only [hg] at h
      cases hs : searchRight stepSource content with
      | some path =>
        simp only [hs] at h
        cases h
        exact Or.inr ⟨path, rfl, rfl, rfl⟩
      | none => simp [hs] at h

/-- Every value produced by a `searchRight` satisfies any predicate its
step guarantees. -/
theorem searchRight_values {step : Chars → Option α} {P : α → Prop}
    (hstep : ∀ s v, step s = some v → P v) :
    ∀ l v, searchRight step l = some v → P v := by
  intro l
  induction l with
  | nil => intro v hv; exact hstep [] v hv
  | cons c rest ih =>
    intro v hv
    simp only [searchRight] at hv
    cases hr : searchRight step rest with
    | some w => rw [hr] at hv; cases hv; exact ih v hr
    | none => rw [hr] at hv; exact hstep _ v hv

theorem stepFlag_values (s : Chars) (v : Chars) (h : stepFlag s = some v) :
    v = ("MANUAL".data) ∨ v = ("RECURSIVE".data) := by
  simp only [stepFlag] at h
  split at h
  · split at h
    · cases h; exact Or.inl rfl
    · exact Option.noConfusion h
  · exact Option.noConfusion h
  · split at h
    · split at h
      · cases h; exact Or.inr rfl
      · exact Option.noConfusion h
    · exact Option.noConfusion h

theorem stepRemote_values (s : Chars) (v : Chars) (h : stepRemote s = some v) :
    v = ("UPDATE".data) ∨ v = ("NOREMOTE".data) := by
  simp only [stepRemote] at h
  split at h
  · split at h
    · cases h; exact Or.inl rfl
    · exact Option.noConfusion h
  · exact Option.noConfusion h
  · split at h
    · split at h
      · cases h; exact Or.inr rfl
      · exact Option.noConfusion h
    · exact Option.noConfusion h

/-- The flags recorded by a successful parse are drawn from
`MANUAL`/`RECURSIVE` attribute parts. -/
theorem BundleLine.parse_components (content : Chars) (bl : BundleLine)
    (h : BundleLine.parse content = .ok bl) :
    ∀ p ∈ bl.components, p.is_attribute = true ∧
      (p.name = ("MANUAL".data) ∨ p.name = ("RECURSIVE".data)) := by
  obtain ⟨pname, _, hcase⟩ := BundleLine.parse_cases_of_ok content bl h
  have hcomp : bl.components = (bundleTailFields content).2.2.2 := by
    rcases hcase with ⟨url, key, _, _, _, hbl⟩ | ⟨path, _, _, hbl⟩ <;> rw [hbl] <;> rfl
  rw [hcomp]
  simp only [bundleTailFields]
  cases hf : searchRight stepFlag content with
  | none => intro p hp; simp at hp
  | some n =>
    intro p hp
    simp only [List.mem_singleton] at hp
    subst hp
    exact ⟨rfl, searchRight_values stepFlag_values content n hf⟩

/-- The text `BundleLine.rewrite(tag=...)` always returns. -/
def BundleLine.rewriteTagText (bl : BundleLine) (t : Chars) : Chars :=
  ("ecbuild_bundle( ".data) ++
    joinSp ((bl.rewriteParts none none (some t)).map renderOptPart) ++ (" )".data)

theorem BundleLine.rewrite_tag_ok (bl : BundleLine) (t : Chars) :
    bl.rewrite none none (some t) = .ok (bl.rewriteTagText t) := rfl

/-- Pure rendering of one loop iteration of
`_rewrite_file_implementation`. -/
def rewriteLinePure (cm : CMakeFile) (enabled_bundles : List Chars)
    (rewrite_rules : List (Chars × Chars))
    (build_group_commit_map : List (Chars × BuildGroupInfo))
    (il : Nat × Chars) : Chars :=
  match assocGet cm.bundle_lines il.1 with
  | none => il.2 ++ ['\n']
  | some bl =>
    if bl.project_name ∈ enabled_bundles then
      match (match bl.github_org_repo_key with
             | some key => if key.isEmpty then none else assocGet build_group_commit_map key
             | none => none) with
      | some info => bl.rewriteTagText info.version_ref.commit ++ ['\n']
      | none =>
        match assocGet rewrite_rules bl.project_name with
        | some tag => bl.rewriteTagText tag ++ ['\n']
        | none => bl.original_line ++ ['\n']
    else bl.disabled_line ++ ['\n']

theorem rewriteOneLine_eq (cm : CMakeFile) (e : List Chars)
    (r : List (Chars × Chars)) (b : List (Chars × BuildGroupInfo)) (il : Nat × Chars) :
    rewriteOneLine cm e r b il = .ok (rewriteLinePure cm e r b il) := by
  simp only [rewriteOneLine, rewriteLinePure]
  cases assocGet cm.bundle_lines il.1 with
  | none => rfl
  | some bl =>
    by_cases he : bl.project_name ∈ e
    · simp only [he, if_true]
      cases (match bl.github_org_repo_key with
             | some key => if key.isEmpty then none else assocGet b key
             | none => none) with
      | some info => simp [BundleLine.rewrite_tag_ok, Except.map]
      | none =>
        cases assocGet r bl.project_name with
        | some tag => simp [BundleLine.rewrite_tag_ok, Except.map]
        | none => rfl
    · simp [he]

/-- When both maps are supplied the usage error fires before any line is
produced. -/
theorem rewrite_file_implementation_error_of_both (cm : CMakeFile)
    (e : List Chars) (r : List (Chars × Chars)) (b : List (Chars × BuildGroupInfo))
    (hr : r ≠ []) (hb : b ≠ []) :
    cm.rewrite_file_implementation e r b =
      .error ("rewrite_rules and build_group_commit_map cannot both be provided".data) := by
  have hcond : (!r.isEmpty && !b.isEmpty) = true := by
    cases r with
    | nil => exact absurd rfl hr
    | cons x xs =>
      cases b with
      | nil => exact absurd rfl hb
      | cons y ys => rfl
  simp [CMakeFile.rewrite_file_implementation, hcond]

/-- A successful rewrite call renders every line with
`rewriteLinePure`. -/
theorem rewrite_file_implementation_ok_eq (cm : CMakeFile)
    (e : List Chars) (r : List (Chars × Chars)) (b : List (Chars × BuildGroupInfo))
    (out : List Chars) (h : cm.rewrite_file_implementation e r b = .ok out) :
    out = (enumF 0 cm.lines).map (rewriteLinePure cm e r b) := by
  by_cases hcond : (!r.isEmpty && !b.isEmpty) = true
  · simp [CMakeFile.rewrite_file_implementation, hcond] at h
  · simp only [CMakeFile.rewrite_file_implementation, hcond, if_false,
      Bool.false_eq_true] at h
    rw [mapM_ok_of_pointwise (rewriteOneLine_eq cm e r b)] at h
    cases h
    rfl

/-- A successful parse records the raw line as `content`. -/
theorem BundleLine.parse_content (content : Chars) (bl : BundleLine)
    (h : BundleLine.parse content = .ok bl) : bl.content = content := by
  obtain ⟨pname, _, hcase⟩ := BundleLine.parse_cases_of_ok content bl h
  rcases hcase with ⟨url, key, _, _, _, hbl⟩ | ⟨path, _, _, hbl⟩ <;> rw [hbl] <;> rfl

/-- Invariant of the `CMakeFile` constructor fold: recorded bundle lines
sit at their own index in the line list. -/
def cmakeInv (st : CMakeFile) : Prop :=
  ∀ i bl, (i, bl) ∈ st.bundle_lines → st.lines.get? i = some bl.content

theorem cmake_parse_fold_inv (pairs : List (Nat × Chars)) :
    ∀ (st0 : CMakeFile), cmakeInv st0 →
      (∀ q ∈ pairs, st0.lines.get? q.1 = some q.2) →
      ∀ st1, List.foldlM cmakeParseStep st0 pairs = .ok st1 →
        cmakeInv st1 ∧ st1.lines = st0.lines := by
  induction pairs with
  | nil =>
    intro st0 hinv hp st1 h
    simp only [List.foldlM_nil] at h
    cases h
    exact ⟨hinv, rfl⟩
  | cons q qs ih =>
    intro st0 hinv hp st1 h
    rw [List.foldlM_cons] at h
    by_cases hq : isBundleCallLine q.2 = true
    · cases hb : BundleLine.parse q.2 with
      | error e =>
        rw [show cmakeParseStep st0 q = .error e by
          simp [cmakeParseStep, hq, hb]] at h
        have h2 : (Except.error e : Except Chars CMakeFile) = .ok st1 := h
        exact Except.noConfusion h2
      | ok bl =>
        rw [show cmakeParseStep st0 q =
            .ok (⟨st0.lines, st0.bundle_lines ++ [(q.1, bl)],
              assocSet st0.bundle_line_names bl.project_name bl⟩ : CMakeFile) by
          simp [cmakeParseStep, hq, hb]] at h
        have hinv2 : cmakeInv ⟨st0.lines, st0.bundle_lines ++ [(q.1, bl)],
            assocSet st0.bundle_line_names bl.project_name bl⟩ := by
          intro i bl2 hmem
          simp only [List.mem_append, List.mem_singleton] at hmem
          rcases hmem with hmem | hmem
          · exact hinv i bl2 hmem
          · cases hmem
            rw [BundleLine.parse_content q.2 bl hb]
            exact hp q (List.mem_cons_self q qs)
        have hp2 : ∀ r ∈ qs, (⟨st0.lines, st0.bundle_lines ++ [(q.1, bl)],
            assocSet st0.bundle_line_names bl.project_name bl⟩ : CMakeFile).lines.get? r.1
              = some r.2 :=
          fun r hr => hp r (List.mem_cons_of_mem q hr)
        exact ih _ hinv2 hp2 st1 h
    · rw [show cmakeParseStep st0 q = .ok st0 by simp [cmakeParseStep, hq]] at h
      exact ih st0 hinv (fun r hr => hp r (List.mem_cons_of_mem q hr)) st1 h

/-- `CMakeFile.parse` invariants: the line list is the split of the
input, and every recorded declaration's `content` is its own line. -/
theorem CMakeFile.parse_preserves_inv (text : Chars) (cm : CMakeFile)
    (h : CMakeFile.parse text = .ok cm) :
    cm.lines = pySplitLines text ∧
      ∀ i bl, (i, bl) ∈ cm.bundle_lines → cm.lines.get? i = some bl.content := by
  have hpairs : ∀ q ∈ enumF 0 (pySplitLines text),
      (pySplitLines text).get? q.1 = some q.2 := by
    intro q hq
    have := mem_enumF (pySplitLines text) 0 q hq
    simpa using this.2
  have hstart : cmakeInv ⟨pySplitLines text, [], []⟩ := by
    intro i bl hmem
    simp at hmem
  obtain ⟨hinv, hlines⟩ :=
    cmake_parse_fold_inv (enumF 0 (pySplitLines text)) ⟨pySplitLines text, [], []⟩
      hstart hpairs cm h
  exact ⟨hlines, hinv⟩

/-- A successful rewrite call emits, at each input index, the pure
rendering of that line. -/
theorem rewrite_ok_line (cm : CMakeFile) (e : List Chars)
    (r : List (Chars × Chars)) (b : List (Chars × BuildGroupInfo))
    (out : List Chars) (i : Nat) (line : Chars)
    (hout : cm.rewrite_file_implementation e r b = .ok out)
    (hline : cm.lines.get? i = some line) :
    out.get? i = some (rewriteLinePure cm e r b (i, line)) := by
  rw [rewrite_file_implementation_ok_eq cm e r b out hout]
  rw [List.get?_map, enumF_get?, hline]
  simp

/- ------------------------------------------------------------------ -/
/- Claim C3                                                            -/
/- ------------------------------------------------------------------ -/

/-- Claim C3: supplying both a non-empty explicit pin map and a
non-empty build-group map makes the rewrite raise the usage error before
producing any output line, while supplying neither succeeds and emits
every enabled declaration line as its original text. -/
theorem c3_exclusive_rewrite_inputs (cm : CMakeFile) (enabled : List Chars)
    (rules : List (Chars × Chars)) (bg : List (Chars × BuildGroupInfo)) :
    (rules ≠ [] → bg ≠ [] →
      cm.rewrite_file_implementation enabled rules bg =
        .error ("rewrite_rules and build_group_commit_map cannot both be provided".data)) ∧
    (∃ out, cm.rewrite_file_implementation enabled [] [] = .ok out ∧
      ∀ i line bl, cm.lines.get? i = some line →
        assocGet cm.bundle_lines i = some bl →
        bl.project_name ∈ enabled →
        out.get? i = some (bl.original_line ++ ['\n'])) := by
  constructor
  · exact fun hr hb => rewrite_file_implementation_error_of_both cm enabled rules bg hr hb
  · have hok : cm.rewrite_file_implementation enabled [] [] =
        .ok ((enumF 0 cm.lines).map (rewriteLinePure cm enabled [] [])) :=
      mapM_ok_of_pointwise (rewriteOneLine_eq cm enabled [] []) (enumF 0 cm.lines)
    refine ⟨_, hok, ?_⟩
    intro i line bl hline hbl he
    rw [rewrite_ok_line cm enabled [] [] _ i line hok hline]
    have hnone : (match bl.github_org_repo_key with
        | some key => if key.isEmpty then none
            else assocGet ([] : List (Chars × BuildGroupInfo)) key
        | none => none) = (none : Option BuildGroupInfo) := by
      cases bl.github_org_repo_key with
      | some key =>
        by_cases hk : key.isEmpty = true
        · simp [hk]
        · simp [hk, assocGet]
      | none => rfl
    simp only [rewriteLinePure, hbl, he, if_true, hnone]
    rfl

/- ------------------------------------------------------------------ -/
/- Claim C5                                                            -/
/- ------------------------------------------------------------------ -/

/-- Claim C5: a declaration whose project name is absent from the
enabled set is emitted as exactly its original line text with `# `
prepended, byte for byte, with no other transformation. -/
theorem c5_disabled_line_commented (text : Chars) (cm : CMakeFile)
    (enabled : List Chars) (rules : List (Chars × Chars))
    (bg : List (Chars × BuildGroupInfo)) (out : List Chars)
    (i : Nat) (line : Chars) (bl : BundleLine)
    (hcm : CMakeFile.parse text = .ok cm)
    (hout : cm.rewrite_file_implementation enabled rules bg = .ok out)
    (hline : cm.lines.get? i = some line)
    (hbl : assocGet cm.bundle_lines i = some bl)
    (hne : bl.project_name ∉ enabled) :
    out.get? i = some (('#' :: ' ' :: line) ++ ['\n']) := by
  have hcontent := (CMakeFile.parse_preserves_inv text cm hcm).2 i bl (assocGet_mem _ _ _ hbl)
  rw [hline] at hcontent
  have hlc : bl.content = line := (Option.some.inj hcontent).symm
  rw [rewrite_ok_line cm enabled rules bg out i line hout hline]
  simp only [rewriteLinePure, hbl, hne, if_neg, BundleLine.disabled_line, hlc]
  rfl

def defaultBundleLine : BundleLine :=
  ⟨[], [], ⟨[], false, [], []⟩, [], ⟨[], false, [], []⟩, none, none, none, none, []⟩

def t5 : Chars :=
  ("# header\necbuild_bundle( PROJECT oops GIT \"https://github.com/jcsda-internal/oops.git\" BRANCH develop UPDATE )".data)

def l5 : Chars :=
  ("ecbuild_bundle( PROJECT oops GIT \"https://github.com/jcsda-internal/oops.git\" BRANCH develop UPDATE )".data)

def cm5 : CMakeFile := (CMakeFile.parse t5).toOption.getD ⟨[], [], []⟩

def out5 : List Chars :=
  (cm5.rewrite_file_implementation [] [] []).toOption.getD []

def bl5 : BundleLine := (assocGet cm5.bundle_lines 1).getD defaultBundleLine

/-- Witness for C5: with an empty enabled set the oops declaration of a
concrete two-line manifest is emitted commented out. -/
theorem c5_disabled_line_commented_witness :
    CMakeFile.parse t5 = .ok cm5 ∧
      cm5.rewrite_file_implementation [] [] [] = .ok out5 ∧
      out5.get? 1 = some (('#' :: ' ' :: l5) ++ ['\n']) :=
  ⟨rfl, rfl,
    c5_disabled_line_commented t5 cm5 [] [] [] out5 1 l5 bl5 rfl rfl rfl rfl
      (by simp)⟩

/- ------------------------------------------------------------------ -/
/- Claim C6                                                            -/
/- ------------------------------------------------------------------ -/

/-- Claim C6: every input line that is not a component declaration is
emitted byte-identical (as split content, with the terminator normalized
to `\n`), at its own index, whatever enabled set and pin maps are
supplied; the line list itself is the CRLF/LF-tolerant split of the
input text. -/
theorem c6_passthrough_fidelity (text : Chars) (cm : CMakeFile)
    (enabled : List Chars) (rules : List (Chars × Chars))
    (bg : List (Chars × BuildGroupInfo)) (out : List Chars)
    (hcm : CMakeFile.parse text = .ok cm)
    (hout : cm.rewrite_file_implementation enabled rules bg = .ok out) :
    cm.lines = pySplitLines text ∧
      out.length = cm.lines.length ∧
      ∀ i line, cm.lines.get? i = some line →
        assocGet cm.bundle_lines i = none →
        out.get? i = some (line ++ ['\n']) := by
  refine ⟨(CMakeFile.parse_preserves_inv text cm hcm).1, ?_, ?_⟩
  · rw [rewrite_file_implementation_ok_eq cm enabled rules bg out hout]
    rw [List.length_map, enumF_length]
  · intro i line hline hnone
    rw [rewrite_ok_line cm enabled rules bg out i line hout hline]
    simp only [rewriteLinePure, hnone]

def t6 : Chars :=
  ("# alpha\r\necbuild_bundle( PROJECT p SOURCE /x )\r\n# omega".data)

def cm6 : CMakeFile := (CMakeFile.parse t6).toOption.getD ⟨[], [], []⟩

def out6 : List Chars :=
  (cm6.rewrite_file_implementation [("p".data)] [] []).toOption.getD []

/-- Witness for C6 on a CRLF-terminated manifest without a trailing
newline: both comment lines pass through byte-identical. -/
theorem c6_passthrough_fidelity_witness :
    CMakeFile.parse t6 = .ok cm6 ∧
      cm6.rewrite_file_implementation [("p".data)] [] [] = .ok out6 ∧
      out6.get? 0 = some (("# alpha".data) ++ ['\n']) ∧
      out6.get? 2 = some (("# omega".data) ++ ['\n']) :=
  ⟨rfl, rfl,
    (c6_passthrough_fidelity t6 cm6 [("p".data)] [] [] out6 rfl rfl).2.2 0
      ("# alpha".data) rfl rfl,
    (c6_passthrough_fidelity t6 cm6 [("p".data)] [] [] out6 rfl rfl).2.2 2
      ("# omega".data) rfl rfl⟩

/- ------------------------------------------------------------------ -/
/- Claim C4                                                            -/
/- ------------------------------------------------------------------ -/

theorem BundleLine.parse_project_part (content : Chars) (bl : BundleLine)
    (h : BundleLine.parse content = .ok bl) :
    bl.project = BundleLinePart.mk ("PROJECT".data) false bl.project_name [] := by
  obtain ⟨pname, _, hcase⟩ := BundleLine.parse_cases_of_ok content bl h
  rcases hcase with ⟨url, key, _, _, _, hbl⟩ | ⟨path, _, _, hbl⟩ <;> rw [hbl] <;> rfl

theorem BundleLine.parse_source_name (content : Chars) (bl : BundleLine)
    (h : BundleLine.parse content = .ok bl) :
    bl.source_reference.name = ("GIT".data) ∨
      bl.source_reference.name = ("SOURCE".data) := by
  obtain ⟨pname, _, hcase⟩ := BundleLine.parse_cases_of_ok content bl h
  rcases hcase with ⟨url, key, _, _, _, hbl⟩ | ⟨path, _, _, hbl⟩ <;> rw [hbl]
  · exact Or.inl rfl
  · exact Or.inr rfl

/-- With a truthy (non-empty) tag, `rewrite` renders the fixed pinned
component list: project, source, `TAG <tag>`, then the flags — the
version slot is the tag and the remote rule is dropped. -/
theorem rewriteParts_tag (bl : BundleLine) (t : Chars) (ht : t ≠ []) :
    bl.rewriteParts none none (some t) =
      [some bl.project, some bl.source_reference,
        some (BundleLinePart.mk ("TAG".data) false t [])] ++
        bl.components.map some := by
  cases t with
  | nil => exact absurd rfl ht
  | cons c cs => rfl

/-- Counterexample for claim C4: an empty pin value is falsy in Python,
so `rewrite(tag="")` keeps the original `BRANCH` reference and the
`UPDATE` remote rule — the emitted line is not a `TAG` pin and still
carries `BRANCH` and `UPDATE` tokens. -/
theorem c4_empty_pin_counterexample :
    (BundleLine.parse
        ("ecbuild_bundle( PROJECT oops GIT \"https://github.com/jcsda-internal/oops.git\" BRANCH develop UPDATE )".data)).bind
        (fun bl => bl.rewrite none none (some [])) =
      .ok ("ecbuild_bundle( PROJECT oops GIT \"https://github.com/jcsda-internal/oops.git\" BRANCH develop UPDATE )".data) ∧
    (BundleLine.parse
        ("ecbuild_bundle( PROJECT oops GIT \"https://github.com/jcsda-internal/oops.git\" BRANCH develop UPDATE )".data)).map
        (fun bl => (bl.rewriteParts none none (some [])).map
          (fun p => Option.map BundleLinePart.name p)) =
      .ok [some ("PROJECT".data), some ("GIT".data), some ("BRANCH".data),
           some ("UPDATE".data)] := by
  constructor <;> rfl

/-- Claim C4 (amended): for a declaration pinned with a non-empty value,
the rewritten component list is project, source, `TAG <value>` and the
parsed flags, so the emitted line's version reference is the `TAG` pin
and no rendered token is `BRANCH`, `UPDATE` or `NOREMOTE`. -/
theorem c4_pin_rewrite_tag (content : Chars) (bl : BundleLine) (t : Chars)
    (hp : BundleLine.parse content = .ok bl) (ht : t ≠ []) :
    bl.rewrite none none (some t) =
      .ok (("ecbuild_bundle( ".data) ++
        joinSp (([some bl.project, some bl.source_reference,
            some (BundleLinePart.mk ("TAG".data) false t [])] ++
            bl.components.map some).map renderOptPart) ++ (" )".data)) ∧
    ∀ p ∈ bl.rewriteParts none none (some t), ∀ q, p = some q →
      q.name ≠ ("BRANCH".data) ∧ q.name ≠ ("UPDATE".data) ∧
        q.name ≠ ("NOREMOTE".data) := by
  constructor
  · rw [BundleLine.rewrite_tag_ok, BundleLine.rewriteTagText, rewriteParts_tag bl t ht]
  · intro p hpmem q hq
    subst hq
    rw [rewriteParts_tag bl t ht] at hpmem
    simp only [List.cons_append, List.nil_append, List.mem_cons, List.mem_map,
      Option.some.injEq] at hpmem
    rcases hpmem with hq1 | hq1 | hq1 | ⟨r, hr, hq1⟩
    · rw [hq1, BundleLine.parse_project_part content bl hp]
      exact ⟨(by decide : ("PROJECT".data) ≠ ("BRANCH".data)),
             (by decide : ("PROJECT".data) ≠ ("UPDATE".data)),
             (by decide : ("PROJECT".data) ≠ ("NOREMOTE".data))⟩
    · rw [hq1]
      rcases BundleLine.parse_source_name content bl hp with hs | hs <;> rw [hs] <;>
        exact ⟨by decide, by decide, by decide⟩
    · rw [hq1]
      exact ⟨(by decide : ("TAG".data) ≠ ("BRANCH".data)),
             (by decide : ("TAG".data) ≠ ("UPDATE".data)),
             (by decide : ("TAG".data) ≠ ("NOREMOTE".data))⟩
    · rw [← hq1]
      rcases (BundleLine.parse_components content bl hp r hr).2 with hn | hn <;>
        rw [hn] <;> exact ⟨by decide, by decide, by decide⟩

def l4w : Chars :=
  ("ecbuild_bundle( PROJECT oops GIT \"https://github.com/jcsda-internal/oops.git\" BRANCH develop UPDATE )".data)

def bl4w : BundleLine := (BundleLine.parse l4w).toOption.getD defaultBundleLine

/-- Witness for the amended C4 at the typical oops line with commit pin
`abc123`. -/
theorem c4_pin_rewrite_tag_witness :
    BundleLine.parse l4w = .ok bl4w ∧
      bl4w.rewrite none none (some ("abc123".data)) =
        .ok (("ecbuild_bundle( ".data) ++
          joinSp (([some bl4w.project, some bl4w.source_reference,
              some (BundleLinePart.mk ("TAG".data) false ("abc123".data) [])] ++
              bl4w.components.map some).map renderOptPart) ++ (" )".data)) ∧
      bl4w.rewrite none none (some ("abc123".data)) =
        .ok ("ecbuild_bundle( PROJECT oops GIT \"https://github.com/jcsda-internal/oops.git\" TAG abc123 )".data) :=
  ⟨rfl, (c4_pin_rewrite_tag l4w bl4w ("abc123".data) rfl (by decide)).1, rfl⟩

def t3w : Chars :=
  ("ecbuild_bundle( PROJECT oops GIT \"https://github.com/jcsda-internal/oops.git\" BRANCH develop UPDATE )".data)

def cm3w : CMakeFile := (CMakeFile.parse t3w).toOption.getD ⟨[], [], []⟩

def bg3w : List (Chars × BuildGroupInfo) :=
  [(("jcsda-internal/oops".data),
    ⟨("jcsda-internal/oops".data), ("https://github.com/jcsda-internal/oops.git".data),
     ⟨1, ("develop".data), ("abc123".data)⟩⟩)]

def out3w : List Chars :=
  (cm3w.rewrite_file_implementation [("oops".data)] [] []).toOption.getD []

def bl3w : BundleLine := (assocGet cm3w.bundle_lines 0).getD defaultBundleLine

/-- Witness for C3: with both maps supplied on a concrete one-line
manifest the usage error fires; with neither, the enabled declaration
comes out as its original text. -/
theorem c3_exclusive_rewrite_inputs_witness :
    cm3w.rewrite_file_implementation [("oops".data)]
        [(("oops".data), ("abc123".data))] bg3w =
      .error ("rewrite_rules and build_group_commit_map cannot both be provided".data) ∧
      out3w.get? 0 = some (t3w ++ ['\n']) := by
  constructor
  · exact (c3_exclusive_rewrite_inputs cm3w [("oops".data)]
      [(("oops".data), ("abc123".data))] bg3w).1 (by simp) (by simp [bg3w])
  · obtain ⟨out, hout, hprop⟩ :=
      (c3_exclusive_rewrite_inputs cm3w [("oops".data)]
        [(("oops".data), ("abc123".data))] bg3w).2
    have hx : (Except.ok out3w : Except Chars (List Chars)) = .ok out := by
      rw [← hout]; rfl
    cases hx
    exact hprop 0 t3w bl3w rfl rfl (by decide)

/- ------------------------------------------------------------------ -/
/- Claim C7 : counterexample                                           -/
/- ------------------------------------------------------------------ -/

/-- Counterexample for claim C7: the project-name group of `_project_re`
is `*`, so `ecbuild_bundle( PROJECT  ! GIT "abc" )` parses with an empty
project name; its emission collapses the name to nothing, and re-parsing
the emitted text captures `GIT` as the project name, so the second
emission differs from the first. -/
theorem c7_reserialize_counterexample :
    (BundleLine.parse ("ecbuild_bundle( PROJECT  ! GIT \"abc\" )".data)).map
        (fun bl => bl.project_name) = .ok [] ∧
    (BundleLine.parse ("ecbuild_bundle( PROJECT  ! GIT \"abc\" )".data)).map
        (fun bl => bl.rewrite_original) =
      .ok ("ecbuild_bundle( PROJECT  GIT \"abc\" None None )".data) ∧
    (BundleLine.parse ("ecbuild_bundle( PROJECT  GIT \"abc\" None None )".data)).map
        (fun bl => bl.rewrite_original) =
      .ok ("ecbuild_bundle( PROJECT GIT GIT \"abc\" None None )".data) ∧
    ("ecbuild_bundle( PROJECT GIT GIT \"abc\" None None )".data) ≠
      ("ecbuild_bundle( PROJECT  GIT \"abc\" None None )".data) := by
  refine ⟨rfl, rfl, rfl, by decide⟩

/- ------------------------------------------------------------------ -/
/- Claim C7 : string-combinatorics toolkit                             -/
/- ------------------------------------------------------------------ -/

theorem stripLit_inv (kw : Chars) : ∀ l r, stripLit kw l = some r → l = kw ++ r := by
  induction kw with
  | nil => intro l r h; cases h; rfl
  | cons k ks ih =>
    intro l r h
    cases l with
    | nil => cases h
    | cons c cs =>
      simp only [stripLit] at h
      by_cases hc : c = k
      · rw [if_pos hc] at h
        rw [hc, List.cons_append]
        exact congrArg _ (ih cs r h)
      · rw [if_neg hc] at h; cases h

theorem stripLit_append (kw r : Chars) : stripLit kw (kw ++ r) = some r := by
  induction kw with
  | nil => rfl
  | cons k ks ih => simp [stripLit, ih]

theorem takeWhile_append_run {p : Char → Bool} (run : Chars) (d : Char) (rest : Chars)
    (hrun : ∀ c ∈ run, p c = true) (hd : p d = false) :
    (run ++ d :: rest).takeWhile p = run ∧ (run ++ d :: rest).dropWhile p = d :: rest := by
  induction run with
  | nil => simp [List.takeWhile, List.dropWhile, hd]
  | cons c cs ih =>
    have hc : p c = true := hrun c (List.mem_cons_self c cs)
    have ihr := ih (fun x hx => hrun x (List.mem_cons_of_mem c hx))
    simp [List.takeWhile, List.dropWhile, hc, ihr.1, ihr.2]

theorem takeWhile_all {p : Char → Bool} : ∀ (l : Chars), ∀ c ∈ l.takeWhile p, p c = true := by
  intro l
  induction l with
  | nil => intro c hc; simp at hc
  | cons a t ih =>
    intro c hc
    by_cases ha : p a = true
    · rw [List.takeWhile_cons, if_pos ha] at hc
      rcases List.mem_cons.mp hc with rfl | hc2
      · exact ha
      · exact ih c hc2
    · rw [List.takeWhile_cons, if_neg ha] at hc
      simp at hc

theorem takeWhile_ne_nil_head {p : Char → Bool} (l : Chars)
    (h : l.takeWhile p ≠ []) : ∃ c r, l = c :: r ∧ p c = true := by
  cases l with
  | nil => simp at h
  | cons a t =>
    by_cases ha : p a = true
    · exact ⟨a, t, rfl, ha⟩
    · rw [List.takeWhile_cons, if_neg ha] at h
      exact absurd rfl h

theorem suffix_append_cases {s a b : Chars} (h : s <:+ (a ++ b)) :
    s <:+ b ∨ ∃ x, x <:+ a ∧ x ≠ [] ∧ s = x ++ b := by
  induction a with
  | nil => exact Or.inl (by simpa using h)
  | cons c a' ih =>
    rw [List.cons_append, List.suffix_cons_iff] at h
    rcases h with rfl | h
    · exact Or.inr ⟨c :: a', List.suffix_refl _, by simp, by simp⟩
    · rcases ih h with h1 | ⟨x, hx, hne, rfl⟩
      · exact Or.inl h1
      · exact Or.inr ⟨x, hx.trans (List.suffix_cons c a'), hne, rfl⟩

theorem searchRight_append_some {step : Chars → Option α} (l1 : Chars) {l2 : Chars} {v : α}
    (h : searchRight step l2 = some v) : searchRight step (l1 ++ l2) = some v := by
  induction l1 with
  | nil => simpa using h
  | cons c r ih => simp [searchRight, ih]

theorem searchRight_none_of {step : Chars → Option α} (l : Chars)
    (h : ∀ s, s <:+ l → step s = none) : searchRight step l = none := by
  induction l with
  | nil => exact h [] (List.suffix_refl _)
  | cons c r ih =>
    have hr := ih (fun s hs => h s (hs.trans (List.suffix_cons c r)))
    simp [searchRight, hr, h (c :: r) (List.suffix_refl _)]

theorem searchRight_exact {step : Chars → Option α} (L : Chars) (c : Char) (M : Chars) (v : α)
    (hstep : step (c :: M) = some v) (hnone : searchRight step M = none) :
    searchRight step (L ++ c :: M) = some v := by
  apply searchRight_append_some L
  simp [searchRight, hnone, hstep]

/-- A keyword immediately followed by a whitespace character sits at the
front of `l` — the prefix every tail matcher requires. -/
def kwWsAtFront (kw l : Chars) : Prop :=
  ∃ c r, l = kw ++ c :: r ∧ isWsPy c = true

/-- No suffix of `l` starts with the keyword-then-whitespace shape. -/
def kwWsClear (kw l : Chars) : Prop :=
  ∀ s, s <:+ l → ¬ kwWsAtFront kw s

/-- A whitespace-free token. -/
def wsFree (T : Chars) : Prop := ∀ c ∈ T, isWsPy c = false

theorem kwWsClear_nil (kw : Chars) (hkw : kw ≠ []) : kwWsClear kw [] := by
  intro s hs hfront
  obtain ⟨c, r, hsr, _⟩ := hfront
  rw [List.suffix_nil.mp hs] at hsr
  cases kw with
  | nil => exact hkw rfl
  | cons k ks => cases hsr

/-- A whitespace-free list contains no keyword-then-whitespace shape
anywhere. -/
theorem kwWsClear_of_wsFree (kw l : Chars) (h : wsFree l) : kwWsClear kw l := by
  intro s hs hfront
  obtain ⟨c, r, hsr, hwc⟩ := hfront
  have hcl : c ∈ l := by
    apply hs.subset
    rw [hsr]
    exact List.mem_append_right kw (List.mem_cons_self c r)
  rw [h c hcl] at hwc
  cases hwc

/-- Variant A: a whitespace-free block followed by a whitespace-headed
tail admits no keyword-then-whitespace start inside the block, unless
the keyword is a suffix of the block itself. -/
theorem kwWsFront_block (kw x : Chars) (c0 : Char) (y : Chars)
    (hkwws : wsFree kw)
    (hx : wsFree x) (hc0 : isWsPy c0 = true)
    (hnsfx : ¬ kw <:+ x) :
    ∀ s, s <:+ x → s ≠ [] → ¬ kwWsAtFront kw (s ++ c0 :: y) := by
  intro s hs hne hfront
  obtain ⟨c, r, hsr, hwc⟩ := hfront
  rcases Nat.lt_trichotomy s.length kw.length with hlt | heq | hgt
  · -- kw = s ++ kw2 with kw2 nonempty; its head would be the whitespace c0
    have hpre : s <+: kw := by
      have h1 : s <+: s ++ c0 :: y := List.prefix_append s (c0 :: y)
      rw [hsr] at h1
      exact List.prefix_of_prefix_length_le h1 (List.prefix_append kw (c :: r))
        (Nat.le_of_lt hlt)
    obtain ⟨kw2, hkw2⟩ := hpre
    have hkw2ne : kw2 ≠ [] := by
      intro hnil
      rw [hnil, List.append_nil] at hkw2
      rw [← hkw2] at hlt
      exact Nat.lt_irrefl _ hlt
    obtain ⟨d, kw2', rfl⟩ := List.exists_cons_of_ne_nil hkw2ne
    rw [← hkw2, List.append_assoc] at hsr
    have h4 : c0 :: y = d :: (kw2' ++ c :: r) := by
      have := List.append_cancel_left hsr
      simpa using this
    have hd : c0 = d := (List.cons.injEq _ _ _ _).mp h4 |>.1
    have hdkw : isWsPy d = false :=
      hkwws d (by rw [← hkw2]; exact List.mem_append_right s (List.mem_cons_self d kw2'))
    rw [← hd, hc0] at hdkw
    cases hdkw
  · -- s = kw, so kw would be a suffix of x
    have hskw : s = kw := by
      have h1 : s <+: s ++ c0 :: y := List.prefix_append s (c0 :: y)
      rw [hsr] at h1
      exact List.IsPrefix.eq_of_length
        (List.prefix_of_prefix_length_le h1 (List.prefix_append kw (c :: r))
          (Nat.le_of_eq heq)) heq
    rw [hskw] at hs
    exact hnsfx hs
  · -- the whitespace c would sit inside the whitespace-free s
    have hpre : kw <+: s := by
      have h1 : kw <+: s ++ c0 :: y := by
        rw [hsr]; exact List.prefix_append kw (c :: r)
      exact List.prefix_of_prefix_length_le h1 (List.prefix_append s (c0 :: y))
        (Nat.le_of_lt hgt)
    obtain ⟨s2, hs2⟩ := hpre
    have hs2ne : s2 ≠ [] := by
      intro hnil
      rw [hnil, List.append_nil] at hs2
      rw [hs2] at hgt
      exact Nat.lt_irrefl _ hgt
    obtain ⟨d, s2', rfl⟩ := List.exists_cons_of_ne_nil hs2ne
    rw [← hs2, List.append_assoc] at hsr
    have h4 : d :: (s2' ++ c0 :: y) = c :: r := by
      have := List.append_cancel_left hsr
      simpa using this
    have hd : d = c := (List.cons.injEq _ _ _ _).mp h4 |>.1
    have hcs : c ∈ s := by
      rw [← hs2, ← hd]
      exact List.mem_append_right kw (List.mem_cons_self d s2')
    have hcx : isWsPy c = false := hx c (hs.subset hcs)
    rw [hwc] at hcx
    cases hcx

theorem kwWsAtFront_head (kw : Chars) (c : Char) (t : Chars)
    (h : kwWsAtFront kw (c :: t)) (hkw : kw ≠ []) : ∃ ks, kw = c :: ks := by
  obtain ⟨d, r, hdr, _⟩ := h
  cases kw with
  | nil => exact absurd rfl hkw
  | cons k ks =>
    rw [List.cons_append] at hdr
    exact ⟨ks, by rw [((List.cons.injEq _ _ _ _).mp hdr).1]⟩

/-- Master clearing lemma: a single-space join of whitespace-free tokens,
none of which has the keyword as a suffix, contains no
keyword-then-whitespace shape at any position. -/
theorem kwWsClear_joinSp (kw : Chars) (hkw : kw ≠ []) (hkwws : wsFree kw) :
    ∀ toks : List Chars, (∀ T ∈ toks, wsFree T ∧ ¬ kw <:+ T) →
      kwWsClear kw (joinSp toks) := by
  intro toks
  induction toks with
  | nil => intro _; exact kwWsClear_nil kw hkw
  | cons T rest ih =>
    intro htoks
    cases rest with
    | nil =>
      exact kwWsClear_of_wsFree kw T (htoks T (List.mem_cons_self T [])).1
    | cons T2 rest2 =>
      have hT := htoks T (List.mem_cons_self T (T2 :: rest2))
      have ihr := ih (fun x hx => htoks x (List.mem_cons_of_mem T hx))
      intro s hs hfront
      rw [show joinSp (T :: T2 :: rest2) = T ++ ' ' :: joinSp (T2 :: rest2) from rfl] at hs
      rcases suffix_append_cases hs with hcase | ⟨x, hxs, hxne, rfl⟩
      · rw [List.suffix_cons_iff] at hcase
        rcases hcase with rfl | hcase
        · obtain ⟨ks, hkks⟩ := kwWsAtFront_head kw ' ' _ hfront hkw
          have := hkwws ' ' (by rw [hkks]; exact List.mem_cons_self _ _)
          simp [isWsPy] at this
        · exact ihr _ hcase hfront
      · exact kwWsFront_block kw T ' ' (joinSp (T2 :: rest2)) hkwws hT.1
          (by decide) hT.2 x hxs hxne hfront

theorem stepGit_needs (s : Chars) (v : Chars) (h : stepGit s = some v) :
    kwWsAtFront ("GIT".data) s := by
  simp only [stepGit] at h
  split at h
  · exact Option.noConfusion h
  · rename_i l1 hst
    split at h
    · exact Option.noConfusion h
    · rename_i hw
      obtain ⟨c, r, hl1, hc⟩ := takeWhile_ne_nil_head l1
        (by simpa [List.isEmpty_iff] using hw)
      exact ⟨c, r, by rw [stripLit_inv _ _ _ hst, hl1], hc⟩

theorem stepSource_needs (s : Chars) (v : Chars) (h : stepSource s = some v) :
    kwWsAtFront ("SOURCE".data) s := by
  simp only [stepSource] at h
  split at h
  · exact Option.noConfusion h
  · rename_i l1 hst
    split at h
    · exact Option.noConfusion h
    · rename_i hw
      obtain ⟨c, r, hl1, hc⟩ := takeWhile_ne_nil_head l1
        (by simpa [List.isEmpty_iff] using hw)
      exact ⟨c, r, by rw [stripLit_inv _ _ _ hst, hl1], hc⟩

theorem stepRefTail_needs (l1 : Chars) (v : Chars) (h : stepRefTail l1 = some v) :
    ∃ c r, l1 = c :: r ∧ isWsPy c = true := by
  simp only [stepRefTail] at h
  split at h
  · exact Option.noConfusion h
  · rename_i hw
    exact takeWhile_ne_nil_head l1 (by simpa [List.isEmpty_iff] using hw)

theorem stepBranchTag_needs (s : Chars) (p : Chars × Chars)
    (h : stepBranchTag s = some p) :
    kwWsAtFront ("BRANCH".data) s ∨ kwWsAtFront ("TAG".data) s := by
  simp only [stepBranchTag] at h
  split at h
  · rename_i l1 hb
    cases ht : stepRefTail l1 with
    | none => rw [ht] at h; exact Option.noConfusion h
    | some v =>
      obtain ⟨c, r, hl1, hc⟩ := stepRefTail_needs l1 v ht
      exact Or.inl ⟨c, r, by rw [stripLit_inv _ _ _ hb, hl1], hc⟩
  · split at h
    · rename_i hb l1 hT
      cases ht : stepRefTail l1 with
      | none => rw [ht] at h; exact Option.noConfusion h
      | some v =>
        obtain ⟨c, r, hl1, hc⟩ := stepRefTail_needs l1 v ht
        exact Or.inr ⟨c, r, by rw [stripLit_inv _ _ _ hT, hl1], hc⟩
    · exact Option.noConfusion h

theorem stepRemote_needs (s : Chars) (v : Chars) (h : stepRemote s = some v) :
    kwWsAtFront ("UPDATE".data) s ∨ kwWsAtFront ("NOREMOTE".data) s := by
  simp only [stepRemote] at h
  split at h
  · rename_i c cs hu
    split at h
    · rename_i hw
      exact Or.inl ⟨c, cs, stripLit_inv _ _ _ hu, hw⟩
    · exact Option.noConfusion h
  · exact Option.noConfusion h
  · split at h
    · rename_i hu c cs hn
      split at h
      · rename_i hw
        exact Or.inr ⟨c, cs, stripLit_inv _ _ _ hn, hw⟩
      · exact Option.noConfusion h
    · exact Option.noConfusion h

theorem stepFlag_needs (s : Chars) (v : Chars) (h : stepFlag s = some v) :
    kwWsAtFront ("MANUAL".data) s ∨ kwWsAtFront ("RECURSIVE".data) s := by
  simp only [stepFlag] at h
  split at h
  · rename_i c cs hu
    split at h
    · rename_i hw
      exact Or.inl ⟨c, cs, stripLit_inv _ _ _ hu, hw⟩
    · exact Option.noConfusion h
  · exact Option.noConfusion h
  · split at h
    · rename_i hu c cs hn
      split at h
      · rename_i hw
        exact Or.inr ⟨c, cs, stripLit_inv _ _ _ hn, hw⟩
      · exact Option.noConfusion h
    · exact Option.noConfusion h

theorem searchRight_none_of_clear {step : Chars → Option α} (kws : List Chars)
    (hneeds : ∀ s v, step s = some v → ∃ kw ∈ kws, kwWsAtFront kw s)
    (l : Chars) (hclear : ∀ kw ∈ kws, kwWsClear kw l) :
    searchRight step l = none := by
  apply searchRight_none_of
  intro s hs
  cases hsv : step s with
  | none => rfl
  | some v =>
    obtain ⟨kw, hkwm, hfront⟩ := hneeds s v hsv
    exact absurd hfront (hclear kw hkwm s hs)

theorem stepGit_sound (s : Chars) (v : Chars) (h : stepGit s = some v) :
    v ≠ [] ∧ ∀ c ∈ v, isUriChar c = true := by
  simp only [stepGit] at h
  split at h
  · exact Option.noConfusion h
  · split at h
    · exact Option.noConfusion h
    · split at h
      · exact Option.noConfusion h
      · rename_i q l3 hdrop
        split at h
        · split at h
          · exact Option.noConfusion h
          · rename_i hrun
            split at h
            · exact Option.noConfusion h
            · split at h
              · split at h
                · exact Option.noConfusion h
                · split at h
                  · cases h
                    exact ⟨by simpa [List.isEmpty_iff] using hrun, takeWhile_all l3⟩
                  · exact Option.noConfusion h
              · exact Option.noConfusion h
        · exact Option.noConfusion h

theorem stepSource_sound (s : Chars) (v : Chars) (h : stepSource s = some v) :
    v ≠ [] ∧ ∀ c ∈ v, isUriChar c = true := by
  simp only [stepSource] at h
  split at h
  · exact Option.noConfusion h
  · rename_i l1 hst
    split at h
    · exact Option.noConfusion h
    · split at h
      · exact Option.noConfusion h
      · rename_i hrun
        split at h
        · exact Option.noConfusion h
        · split at h
          · cases h
            exact ⟨by simpa [List.isEmpty_iff] using hrun,
              takeWhile_all (List.dropWhile isWsPy l1)⟩
          · exact Option.noConfusion h

theorem stepRefTail_sound (l1 : Chars) (v : Chars) (h : stepRefTail l1 = some v) :
    v ≠ [] ∧ ∀ c ∈ v, isNameChar c = true := by
  simp only [stepRefTail] at h
  split at h
  · exact Option.noConfusion h
  · split at h
    · exact Option.noConfusion h
    · rename_i hrun
      split at h
      · exact Option.noConfusion h
      · split at h
        · cases h
          exact ⟨by simpa [List.isEmpty_iff] using hrun,
            takeWhile_all (List.dropWhile isWsPy l1)⟩
        · exact Option.noConfusion h

theorem stepBranchTag_sound (s : Chars) (p : Chars × Chars)
    (h : stepBranchTag s = some p) :
    (p.1 = ("BRANCH".data) ∨ p.1 = ("TAG".data)) ∧ p.2 ≠ [] ∧
      ∀ c ∈ p.2, isNameChar c = true := by
  simp only [stepBranchTag] at h
  split at h
  · rename_i l1 hb
    cases ht : stepRefTail l1 with
    | none => rw [ht] at h; exact Option.noConfusion h
    | some v =>
      rw [ht] at h
      cases h
      exact ⟨Or.inl rfl, (stepRefTail_sound l1 v ht).1, (stepRefTail_sound l1 v ht).2⟩
  · split at h
    · rename_i hb l1 hT
      cases ht : stepRefTail l1 with
      | none => rw [ht] at h; exact Option.noConfusion h
      | some v =>
        rw [ht] at h
        cases h
        exact ⟨Or.inr rfl, (stepRefTail_sound l1 v ht).1, (stepRefTail_sound l1 v ht).2⟩
    · exact Option.noConfusion h

theorem projectMatch_sound (l : Chars) (pn : Chars) (h : projectMatch l = some pn) :
    ∀ c ∈ pn, isNameChar c = true := by
  simp only [projectMatch] at h
  split at h
  · exact Option.noConfusion h
  · split at h
    · exact Option.noConfusion h
    · rename_i l1 hp1 l2 hp2
      split at h
      · exact Option.noConfusion h
      · split at h
        · split at h
          · cases h
            exact takeWhile_all (List.dropWhile isWsPy l2)
          · split at h
            · cases h
              intro c hc
              simp at hc
            · exact Option.noConfusion h
        · split at h
          · cases h
            intro c hc
            simp at hc
          · exact Option.noConfusion h

theorem isWsPy_cases (c : Char) (h : isWsPy c = true) :
    c = ' ' ∨ c = '\t' ∨ c = '\n' ∨ c = '\r' ∨ c = '\x0b' ∨ c = '\x0c' := by
  simp only [isWsPy, Bool.or_eq_true, decide_eq_true_eq] at h
  tauto

theorem nameChar_not_ws (c : Char) (h : isNameChar c = true) : isWsPy c = false := by
  by_contra hws
  rw [Bool.not_eq_false] at hws
  rcases isWsPy_cases c hws with rfl | rfl | rfl | rfl | rfl | rfl <;>
    exact absurd h (by decide)

theorem uriChar_not_ws (c : Char) (h : isUriChar c = true) : isWsPy c = false := by
  by_contra hws
  rw [Bool.not_eq_false] at hws
  rcases isWsPy_cases c hws with rfl | rfl | rfl | rfl | rfl | rfl <;>
    exact absurd h (by decide)

theorem wsFree_of_nameChars (l : Chars) (h : ∀ c ∈ l, isNameChar c = true) : wsFree l :=
  fun c hc => nameChar_not_ws c (h c hc)

theorem wsFree_of_uriChars (l : Chars) (h : ∀ c ∈ l, isUriChar c = true) : wsFree l :=
  fun c hc => uriChar_not_ws c (h c hc)

theorem suffix_getLast? {l1 l2 : Chars} (h : l1 <:+ l2) (hne : l1 ≠ []) :
    l2.getLast? = l1.getLast? := by
  obtain ⟨t, rfl⟩ := h
  exact List.getLast?_append_of_ne_nil t hne

/-- None of the reserved keywords (all ending in letters) is a suffix of
a quote-terminated token. -/
theorem not_suffix_quoted (kw url : Chars) (hkw : kw ≠ [])
    (hlast : kw.getLast? ≠ some '"') : ¬ kw <:+ ('"' :: url ++ ['"']) := by
  intro hs
  have h1 := suffix_getLast? hs hkw
  have h2 : ('"' :: url ++ ['"'] : Chars).getLast? = some '"' := by
    rw [show ('"' :: url ++ ['"'] : Chars) = ('"' :: url) ++ ['"'] by simp]
    exact List.getLast?_concat _
  exact hlast (h2 ▸ h1).symm

def joinSpPre : List Chars → Chars
  | [] => []
  | T :: rest => T ++ ' ' :: joinSpPre rest

theorem joinSp_cons_of_ne_nil (T : Chars) (rest : List Chars) (h : rest ≠ []) :
    joinSp (T :: rest) = T ++ ' ' :: joinSp rest := by
  cases rest with
  | nil => exact absurd rfl h
  | cons x xs => rfl

theorem joinSp_append (t1 t2 : List Chars) (h : t2 ≠ []) :
    joinSp (t1 ++ t2) = joinSpPre t1 ++ joinSp t2 := by
  induction t1 with
  | nil => rfl
  | cons T t1' ih =>
    have hne : t1' ++ t2 ≠ [] := by
      intro hnil
      rcases List.append_eq_nil.mp hnil with ⟨_, h2⟩
      exact h h2
    rw [List.cons_append, joinSp_cons_of_ne_nil T _ hne, ih,
      show joinSpPre (T :: t1') = T ++ ' ' :: joinSpPre t1' from rfl]
    simp

/-- The tokens contributed by the optional slots of an emitted line:
version-reference pair or `None`, remote rule or `None`, then the single
captured flag, then the closing parenthesis. -/
instance (T : Chars) : Decidable (wsFree T) := List.decidableBAll _ T

def tailToks3 (flRaw : Option Chars) : List Chars :=
  (match flRaw with
   | some f => [f]
   | none => []) ++ [([')'] : Chars)]

def tailToks2 (rrRaw flRaw : Option Chars) : List Chars :=
  (match rrRaw with
   | some n => [n]
   | none => [("None".data)]) ++ tailToks3 flRaw

def tailToks (vrRaw : Option (Chars × Chars)) (rrRaw flRaw : Option Chars) : List Chars :=
  (match vrRaw with
   | some q => [q.1, q.2]
   | none => [("None".data)]) ++ tailToks2 rrRaw flRaw

theorem tailToks3_clear (kw : Chars) (flRaw : Option Chars)
    (hfl : ∀ n, flRaw = some n → wsFree n ∧ ¬ kw <:+ n)
    (hparen : ¬ kw <:+ ([')'] : Chars)) :
    ∀ T ∈ tailToks3 flRaw, wsFree T ∧ ¬ kw <:+ T := by
  intro T hT
  cases flRaw with
  | none =>
    simp only [tailToks3, List.nil_append, List.mem_singleton] at hT
    subst hT
    exact ⟨by decide, hparen⟩
  | some f =>
    simp only [tailToks3, List.cons_append, List.nil_append, List.mem_cons,
      List.mem_singleton, List.not_mem_nil, or_false] at hT
    rcases hT with rfl | rfl
    · exact hfl T rfl
    · exact ⟨by decide, hparen⟩

theorem tailToks2_clear (kw : Chars) (rrRaw flRaw : Option Chars)
    (hrr : ∀ n, rrRaw = some n → wsFree n ∧ ¬ kw <:+ n)
    (hfl : ∀ n, flRaw = some n → wsFree n ∧ ¬ kw <:+ n)
    (hnone : ¬ kw <:+ ("None".data))
    (hparen : ¬ kw <:+ ([')'] : Chars)) :
    ∀ T ∈ tailToks2 rrRaw flRaw, wsFree T ∧ ¬ kw <:+ T := by
  intro T hT
  cases rrRaw with
  | none =>
    simp only [tailToks2, List.cons_append, List.nil_append, List.mem_cons] at hT
    rcases hT with rfl | hT
    · exact ⟨by decide, hnone⟩
    · exact tailToks3_clear kw flRaw hfl hparen T hT
  | some n =>
    simp only [tailToks2, List.cons_append, List.nil_append, List.mem_cons] at hT
    rcases hT with rfl | hT
    · exact hrr T rfl
    · exact tailToks3_clear kw flRaw hfl hparen T hT

theorem tailToks_clear (kw : Chars) (vrRaw : Option (Chars × Chars))
    (rrRaw flRaw : Option Chars)
    (hvr : ∀ q, vrRaw = some q →
      (wsFree q.1 ∧ ¬ kw <:+ q.1) ∧ (wsFree q.2 ∧ ¬ kw <:+ q.2))
    (hrr : ∀ n, rrRaw = some n → wsFree n ∧ ¬ kw <:+ n)
    (hfl : ∀ n, flRaw = some n → wsFree n ∧ ¬ kw <:+ n)
    (hnone : ¬ kw <:+ ("None".data))
    (hparen : ¬ kw <:+ ([')'] : Chars)) :
    ∀ T ∈ tailToks vrRaw rrRaw flRaw, wsFree T ∧ ¬ kw <:+ T := by
  intro T hT
  cases vrRaw with
  | none =>
    simp only [tailToks, List.cons_append, List.nil_append, List.mem_cons] at hT
    rcases hT with rfl | hT
    · exact ⟨by decide, hnone⟩
    · exact tailToks2_clear kw rrRaw flRaw hrr hfl hnone hparen T hT
  | some q =>
    simp only [tailToks, List.cons_append, List.nil_append, List.mem_cons] at hT
    rcases hT with rfl | rfl | hT
    · exact (hvr q rfl).1
    · exact (hvr q rfl).2
    · exact tailToks2_clear kw rrRaw flRaw hrr hfl hnone hparen T hT

theorem stepGit_hit (url rest : Chars) (hne : url ≠ [])
    (huri : ∀ c ∈ url, isUriChar c = true) :
    stepGit (("GIT".data) ++ ' ' :: '"' :: (url ++ '"' :: ' ' :: rest)) = some url := by
  obtain ⟨htw, hdw⟩ := takeWhile_append_run url '"' (' ' :: rest) huri (by decide)
  have hurlne : url.isEmpty = false := by
    cases url with
    | nil => exact absurd rfl hne
    | cons a t => rfl
  simp only [stepGit, stripLit_append]
  rw [List.takeWhile_cons_of_pos (by decide : isWsPy ' ' = true),
    List.takeWhile_cons_of_neg (by decide : ¬ isWsPy '"' = true),
    List.dropWhile_cons_of_pos (by decide : isWsPy ' ' = true),
    List.dropWhile_cons_of_neg (by decide : ¬ isWsPy '"' = true)]
  simp only [List.isEmpty_cons, if_false, Bool.false_eq_true]
  rw [if_pos (by decide : isQuoteCh '"' = true), htw, hdw, hurlne]
  simp only [Bool.false_eq_true, if_false]
  rw [if_pos (by decide : isQuoteCh '"' = true),
    if_pos (by decide : isWsPy ' ' = true)]

theorem stepSource_hit (path rest : Chars) (hne : path ≠ [])
    (huri : ∀ c ∈ path, isUriChar c = true) :
    stepSource (("SOURCE".data) ++ ' ' :: (path ++ ' ' :: rest)) = some path := by
  obtain ⟨htw, hdw⟩ := takeWhile_append_run path ' ' rest huri (by decide)
  have hpne : path.isEmpty = false := by
    cases path with
    | nil => exact absurd rfl hne
    | cons a t => rfl
  obtain ⟨c0, path', rfl⟩ := List.exists_cons_of_ne_nil hne
  have hc0 : isWsPy c0 = false := uriChar_not_ws c0 (huri c0 (List.mem_cons_self _ _))
  simp only [stepSource, stripLit_append]
  rw [List.takeWhile_cons_of_pos (by decide : isWsPy ' ' = true),
    List.cons_append, List.takeWhile_cons_of_neg (by simp [hc0] : ¬ isWsPy c0 = true),
    List.dropWhile_cons_of_pos (by decide : isWsPy ' ' = true),
    List.dropWhile_cons_of_neg (by simp [hc0] : ¬ isWsPy c0 = true)]
  rw [← List.cons_append, htw, hdw]
  simp only [List.isEmpty_cons, Bool.false_eq_true, if_false]
  rw [if_pos (by decide : isWsPy ' ' = true)]

theorem stepRefTail_hit (v rest : Chars) (hne : v ≠ [])
    (hv : ∀ c ∈ v, isNameChar c = true) :
    stepRefTail (' ' :: (v ++ ' ' :: rest)) = some v := by
  obtain ⟨htw, hdw⟩ := takeWhile_append_run v ' ' rest hv (by decide)
  obtain ⟨c0, v', rfl⟩ := List.exists_cons_of_ne_nil hne
  have hc0 : isWsPy c0 = false := nameChar_not_ws c0 (hv c0 (List.mem_cons_self _ _))
  simp only [stepRefTail]
  rw [List.takeWhile_cons_of_pos (by decide : isWsPy ' ' = true),
    List.cons_append, List.takeWhile_cons_of_neg (by simp [hc0] : ¬ isWsPy c0 = true),
    List.dropWhile_cons_of_pos (by decide : isWsPy ' ' = true),
    List.dropWhile_cons_of_neg (by simp [hc0] : ¬ isWsPy c0 = true)]
  rw [← List.cons_append, htw, hdw]
  simp only [List.isEmpty_cons, Bool.false_eq_true, if_false]
  rw [if_pos (by decide : isWsPy ' ' = true)]

theorem stepBranchTag_hit_branch (v rest : Chars) (hne : v ≠ [])
    (hv : ∀ c ∈ v, isNameChar c = true) :
    stepBranchTag (("BRANCH".data) ++ ' ' :: (v ++ ' ' :: rest)) =
      some (("BRANCH".data), v) := by
  simp only [stepBranchTag, stripLit_append, stepRefTail_hit v rest hne hv]
  rfl

theorem stepBranchTag_hit_tag (v rest : Chars) (hne : v ≠ [])
    (hv : ∀ c ∈ v, isNameChar c = true) :
    stepBranchTag (("TAG".data) ++ ' ' :: (v ++ ' ' :: rest)) =
      some (("TAG".data), v) := by
  have hb : stripLit ("BRANCH".data) (("TAG".data) ++ ' ' :: (v ++ ' ' :: rest)) = none := by
    simp [stripLit]
  simp only [stepBranchTag, hb, stripLit_append, stepRefTail_hit v rest hne hv]
  rfl

theorem stepRemote_hit_update (rest : Chars) :
    stepRemote (("UPDATE".data) ++ ' ' :: rest) = some ("UPDATE".data) := by
  simp only [stepRemote, stripLit_append]
  rw [if_pos (by decide : isWsPy ' ' = true)]

theorem stepRemote_hit_noremote (rest : Chars) :
    stepRemote (("NOREMOTE".data) ++ ' ' :: rest) = some ("NOREMOTE".data) := by
  have hu : stripLit ("UPDATE".data) (("NOREMOTE".data) ++ ' ' :: rest) = none := by
    simp [stripLit]
  simp only [stepRemote, hu, stripLit_append]
  rw [if_pos (by decide : isWsPy ' ' = true)]

theorem stepFlag_hit_manual (rest : Chars) :
    stepFlag (("MANUAL".data) ++ ' ' :: rest) = some ("MANUAL".data) := by
  simp only [stepFlag, stripLit_append]
  rw [if_pos (by decide : isWsPy ' ' = true)]

theorem stepFlag_hit_recursive (rest : Chars) :
    stepFlag (("RECURSIVE".data) ++ ' ' :: rest) = some ("RECURSIVE".data) := by
  have hu : stripLit ("MANUAL".data) (("RECURSIVE".data) ++ ' ' :: rest) = none := by
    simp [stripLit]
  simp only [stepFlag, hu, stripLit_append]
  rw [if_pos (by decide : isWsPy ' ' = true)]

theorem searchRight_git_none (toks : List Chars)
    (h : ∀ T ∈ toks, wsFree T ∧ ¬ ("GIT".data) <:+ T) :
    searchRight stepGit (joinSp toks) = none :=
  searchRight_none_of_clear [("GIT".data)]
    (fun s v hsv => ⟨("GIT".data), List.mem_singleton.mpr rfl, stepGit_needs s v hsv⟩)
    _ (fun kw hkw => by
      rw [List.mem_singleton.mp hkw]
      exact kwWsClear_joinSp _ (by decide) (by decide) toks h)

theorem searchRight_source_none (toks : List Chars)
    (h : ∀ T ∈ toks, wsFree T ∧ ¬ ("SOURCE".data) <:+ T) :
    searchRight stepSource (joinSp toks) = none :=
  searchRight_none_of_clear [("SOURCE".data)]
    (fun s v hsv => ⟨("SOURCE".data), List.mem_singleton.mpr rfl, stepSource_needs s v hsv⟩)
    _ (fun kw hkw => by
      rw [List.mem_singleton.mp hkw]
      exact kwWsClear_joinSp _ (by decide) (by decide) toks h)

theorem searchRight_bt_none (toks : List Chars)
    (h : ∀ T ∈ toks, wsFree T ∧ ¬ ("BRANCH".data) <:+ T ∧ ¬ ("TAG".data) <:+ T) :
    searchRight stepBranchTag (joinSp toks) = none :=
  searchRight_none_of_clear [("BRANCH".data), ("TAG".data)]
    (fun s p hsp => by
      rcases stepBranchTag_needs s p hsp with hb | ht
      · exact ⟨("BRANCH".data), by simp, hb⟩
      · exact ⟨("TAG".data), by simp, ht⟩)
    _ (fun kw hkw => by
      rcases List.mem_cons.mp hkw with rfl | hkw2
      · exact kwWsClear_joinSp _ (by decide) (by decide) toks
          (fun T hT => ⟨(h T hT).1, (h T hT).2.1⟩)
      · rw [List.mem_singleton.mp hkw2]
        exact kwWsClear_joinSp _ (by decide) (by decide) toks
          (fun T hT => ⟨(h T hT).1, (h T hT).2.2⟩))

theorem searchRight_remote_none (toks : List Chars)
    (h : ∀ T ∈ toks, wsFree T ∧ ¬ ("UPDATE".data) <:+ T ∧ ¬ ("NOREMOTE".data) <:+ T) :
    searchRight stepRemote (joinSp toks) = none :=
  searchRight_none_of_clear [("UPDATE".data), ("NOREMOTE".data)]
    (fun s v hsv => by
      rcases stepRemote_needs s v hsv with hu | hn
      · exact ⟨("UPDATE".data), by simp, hu⟩
      · exact ⟨("NOREMOTE".data), by simp, hn⟩)
    _ (fun kw hkw => by
      rcases List.mem_cons.mp hkw with rfl | hkw2
      · exact kwWsClear_joinSp _ (by decide) (by decide) toks
          (fun T hT => ⟨(h T hT).1, (h T hT).2.1⟩)
      · rw [List.mem_singleton.mp hkw2]
        exact kwWsClear_joinSp _ (by decide) (by decide) toks
          (fun T hT => ⟨(h T hT).1, (h T hT).2.2⟩))

theorem searchRight_flag_none (toks : List Chars)
    (h : ∀ T ∈ toks, wsFree T ∧ ¬ ("MANUAL".data) <:+ T ∧ ¬ ("RECURSIVE".data) <:+ T) :
    searchRight stepFlag (joinSp toks) = none :=
  searchRight_none_of_clear [("MANUAL".data), ("RECURSIVE".data)]
    (fun s v hsv => by
      rcases stepFlag_needs s v hsv with hu | hn
      · exact ⟨("MANUAL".data), by simp, hu⟩
      · exact ⟨("RECURSIVE".data), by simp, hn⟩)
    _ (fun kw hkw => by
      rcases List.mem_cons.mp hkw with rfl | hkw2
      · exact kwWsClear_joinSp _ (by decide) (by decide) toks
          (fun T hT => ⟨(h T hT).1, (h T hT).2.1⟩)
      · rw [List.mem_singleton.mp hkw2]
        exact kwWsClear_joinSp _ (by decide) (by decide) toks
          (fun T hT => ⟨(h T hT).1, (h T hT).2.2⟩))

theorem searchRight_git_at (pre : List Chars) (url : Chars) (post : List Chars)
    (hne : url ≠ []) (huri : ∀ c ∈ url, isUriChar c = true)
    (hpost_ne : post ≠ [])
    (hpost : ∀ T ∈ post, wsFree T ∧ ¬ ("GIT".data) <:+ T) :
    searchRight stepGit
        (joinSp (pre ++ ("GIT".data) :: ('"' :: url ++ ['"']) :: post)) = some url := by
  rw [joinSp_append pre _ (by simp)]
  have hM : joinSp (("GIT".data) :: ('"' :: url ++ ['"']) :: post) =
      'G' :: (("IT".data) ++ ' ' :: '"' :: (url ++ '"' :: ' ' :: joinSp post)) := by
    rw [joinSp_cons_of_ne_nil _ _ (by simp),
      joinSp_cons_of_ne_nil _ _ hpost_ne]
    simp [List.append_assoc]
  rw [hM]
  apply searchRight_exact
  · have := stepGit_hit url (joinSp post) hne huri
    simpa [List.append_assoc] using this
  · have hM2 : ("IT".data) ++ ' ' :: '"' :: (url ++ '"' :: ' ' :: joinSp post) =
        joinSp (("IT".data) :: ('"' :: url ++ ['"']) :: post) := by
      rw [joinSp_cons_of_ne_nil _ _ (by simp),
        joinSp_cons_of_ne_nil _ _ hpost_ne]
      simp [List.append_assoc]
    rw [hM2]
    apply searchRight_git_none
    intro T hT
    rcases List.mem_cons.mp hT with rfl | hT2
    · exact ⟨by decide, by decide⟩
    · rcases List.mem_cons.mp hT2 with rfl | hT3
      · refine ⟨?_, not_suffix_quoted _ url (by decide) (by decide)⟩
        intro c hc
        simp only [List.cons_append, List.mem_cons, List.mem_append,
          List.mem_singleton, List.not_mem_nil, or_false] at hc
        rcases hc with rfl | hc | rfl
        · rfl
        · exact uriChar_not_ws c (huri c hc)
        · rfl
      · exact hpost T hT3

theorem searchRight_source_at (pre : List Chars) (path : Chars) (post : List Chars)
    (hne : path ≠ []) (huri : ∀ c ∈ path, isUriChar c = true)
    (hsfx : ¬ ("SOURCE".data) <:+ path)
    (hpost_ne : post ≠ [])
    (hpost : ∀ T ∈ post, wsFree T ∧ ¬ ("SOURCE".data) <:+ T) :
    searchRight stepSource
        (joinSp (pre ++ ("SOURCE".data) :: path :: post)) = some path := by
  rw [joinSp_append pre _ (by simp)]
  have hM : joinSp (("SOURCE".data) :: path :: post) =
      'S' :: (("OURCE".data) ++ ' ' :: (path ++ ' ' :: joinSp post)) := by
    rw [joinSp_cons_of_ne_nil _ _ (by simp),
      joinSp_cons_of_ne_nil _ _ hpost_ne]
    simp [List.append_assoc]
  rw [hM]
  apply searchRight_exact
  · have := stepSource_hit path (joinSp post) hne huri
    simpa [List.append_assoc] using this
  · have hM2 : ("OURCE".data) ++ ' ' :: (path ++ ' ' :: joinSp post) =
        joinSp (("OURCE".data) :: path :: post) := by
      rw [joinSp_cons_of_ne_nil _ _ (by simp),
        joinSp_cons_of_ne_nil _ _ hpost_ne]
    rw [hM2]
    apply searchRight_source_none
    intro T hT
    rcases List.mem_cons.mp hT with rfl | hT2
    · exact ⟨by decide, by decide⟩
    · rcases List.mem_cons.mp hT2 with rfl | hT3
      · exact ⟨wsFree_of_uriChars T huri, hsfx⟩
      · exact hpost T hT3

theorem searchRight_bt_at_branch (pre : List Chars) (v : Chars) (post : List Chars)
    (hne : v ≠ []) (hv : ∀ c ∈ v, isNameChar c = true)
    (hsfx1 : ¬ ("BRANCH".data) <:+ v) (hsfx2 : ¬ ("TAG".data) <:+ v)
    (hpost_ne : post ≠ [])
    (hpost : ∀ T ∈ post, wsFree T ∧ ¬ ("BRANCH".data) <:+ T ∧ ¬ ("TAG".data) <:+ T) :
    searchRight stepBranchTag
        (joinSp (pre ++ ("BRANCH".data) :: v :: post)) = some (("BRANCH".data), v) := by
  rw [joinSp_append pre _ (by simp)]
  have hM : joinSp (("BRANCH".data) :: v :: post) =
      'B' :: (("RANCH".data) ++ ' ' :: (v ++ ' ' :: joinSp post)) := by
    rw [joinSp_cons_of_ne_nil _ _ (by simp),
      joinSp_cons_of_ne_nil _ _ hpost_ne]
    simp [List.append_assoc]
  rw [hM]
  apply searchRight_exact
  · have := stepBranchTag_hit_branch v (joinSp post) hne hv
    simpa [List.append_assoc] using this
  · have hM2 : ("RANCH".data) ++ ' ' :: (v ++ ' ' :: joinSp post) =
        joinSp (("RANCH".data) :: v :: post) := by
      rw [joinSp_cons_of_ne_nil _ _ (by simp),
        joinSp_cons_of_ne_nil _ _ hpost_ne]
    rw [hM2]
    apply searchRight_bt_none
    intro T hT
    rcases List.mem_cons.mp hT with rfl | hT2
    · exact ⟨by decide, by decide, by decide⟩
    · rcases List.mem_cons.mp hT2 with rfl | hT3
      · exact ⟨wsFree_of_nameChars T hv, hsfx1, hsfx2⟩
      · exact hpost T hT3

theorem searchRight_bt_at_tag (pre : List Chars) (v : Chars) (post : List Chars)
    (hne : v ≠ []) (hv : ∀ c ∈ v, isNameChar c = true)
    (hsfx1 : ¬ ("BRANCH".data) <:+ v) (hsfx2 : ¬ ("TAG".data) <:+ v)
    (hpost_ne : post ≠ [])
    (hpost : ∀ T ∈ post, wsFree T ∧ ¬ ("BRANCH".data) <:+ T ∧ ¬ ("TAG".data) <:+ T) :
    searchRight stepBranchTag
        (joinSp (pre ++ ("TAG".data) :: v :: post)) = some (("TAG".data), v) := by
  rw [joinSp_append pre _ (by simp)]
  have hM : joinSp (("TAG".data) :: v :: post) =
      'T' :: (("AG".data) ++ ' ' :: (v ++ ' ' :: joinSp post)) := by
    rw [joinSp_cons_of_ne_nil _ _ (by simp),
      joinSp_cons_of_ne_nil _ _ hpost_ne]
    simp [List.append_assoc]
  rw [hM]
  apply searchRight_exact
  · have := stepBranchTag_hit_tag v (joinSp post) hne hv
    simpa [List.append_assoc] using this
  · have hM2 : ("AG".data) ++ ' ' :: (v ++ ' ' :: joinSp post) =
        joinSp (("AG".data) :: v :: post) := by
      rw [joinSp_cons_of_ne_nil _ _ (by simp),
        joinSp_cons_of_ne_nil _ _ hpost_ne]
    rw [hM2]
    apply searchRight_bt_none
    intro T hT
    rcases List.mem_cons.mp hT with rfl | hT2
    · exact ⟨by decide, by decide, by decide⟩
    · rcases List.mem_cons.mp hT2 with rfl | hT3
      · exact ⟨wsFree_of_nameChars T hv, hsfx1, hsfx2⟩
      · exact hpost T hT3

theorem searchRight_remote_at_update (pre : List Chars) (post : List Chars)
    (hpost_ne : post ≠ [])
    (hpost : ∀ T ∈ post, wsFree T ∧ ¬ ("UPDATE".data) <:+ T ∧ ¬ ("NOREMOTE".data) <:+ T) :
    searchRight stepRemote
        (joinSp (pre ++ ("UPDATE".data) :: post)) = some ("UPDATE".data) := by
  rw [joinSp_append pre _ (by simp)]
  have hM : joinSp (("UPDATE".data) :: post) =
      'U' :: (("PDATE".data) ++ ' ' :: joinSp post) := by
    rw [joinSp_cons_of_ne_nil _ _ hpost_ne]
    simp
  rw [hM]
  apply searchRight_exact
  · exact stepRemote_hit_update (joinSp post)
  · have hM2 : ("PDATE".data) ++ ' ' :: joinSp post =
        joinSp (("PDATE".data) :: post) := by
      rw [joinSp_cons_of_ne_nil _ _ hpost_ne]
    rw [hM2]
    apply searchRight_remote_none
    intro T hT
    rcases List.mem_cons.mp hT with rfl | hT2
    · exact ⟨by decide, by decide, by decide⟩
    · exact hpost T hT2

theorem searchRight_remote_at_noremote (pre : List Chars) (post : List Chars)
    (hpost_ne : post ≠ [])
    (hpost : ∀ T ∈ post, wsFree T ∧ ¬ ("UPDATE".data) <:+ T ∧ ¬ ("NOREMOTE".data) <:+ T) :
    searchRight stepRemote
        (joinSp (pre ++ ("NOREMOTE".data) :: post)) = some ("NOREMOTE".data) := by
  rw [joinSp_append pre _ (by simp)]
  have hM : joinSp (("NOREMOTE".data) :: post) =
      'N' :: (("OREMOTE".data) ++ ' ' :: joinSp post) := by
    rw [joinSp_cons_of_ne_nil _ _ hpost_ne]
    simp
  rw [hM]
  apply searchRight_exact
  · exact stepRemote_hit_noremote (joinSp post)
  · have hM2 : ("OREMOTE".data) ++ ' ' :: joinSp post =
        joinSp (("OREMOTE".data) :: post) := by
      rw [joinSp_cons_of_ne_nil _ _ hpost_ne]
    rw [hM2]
    apply searchRight_remote_none
    intro T hT
    rcases List.mem_cons.mp hT with rfl | hT2
    · exact ⟨by decide, by decide, by decide⟩
    · exact hpost T hT2

theorem searchRight_flag_at_manual (pre : List Chars) (post : List Chars)
    (hpost_ne : post ≠ [])
    (hpost : ∀ T ∈ post, wsFree T ∧ ¬ ("MANUAL".data) <:+ T ∧ ¬ ("RECURSIVE".data) <:+ T) :
    searchRight stepFlag
        (joinSp (pre ++ ("MANUAL".data) :: post)) = some ("MANUAL".data) := by
  rw [joinSp_append pre _ (by simp)]
  have hM : joinSp (("MANUAL".data) :: post) =
      'M' :: (("ANUAL".data) ++ ' ' :: joinSp post) := by
    rw [joinSp_cons_of_ne_nil _ _ hpost_ne]
    simp
  rw [hM]
  apply searchRight_exact
  · exact stepFlag_hit_manual (joinSp post)
  · have hM2 : ("ANUAL".data) ++ ' ' :: joinSp post =
        joinSp (("ANUAL".data) :: post) := by
      rw [joinSp_cons_of_ne_nil _ _ hpost_ne]
    rw [hM2]
    apply searchRight_flag_none
    intro T hT
    rcases List.mem_cons.mp hT with rfl | hT2
    · exact ⟨by decide, by decide, by decide⟩
    · exact hpost T hT2

theorem searchRight_flag_at_recursive (pre : List Chars) (post : List Chars)
    (hpost_ne : post ≠ [])
    (hpost : ∀ T ∈ post, wsFree T ∧ ¬ ("MANUAL".data) <:+ T ∧ ¬ ("RECURSIVE".data) <:+ T) :
    searchRight stepFlag
        (joinSp (pre ++ ("RECURSIVE".data) :: post)) = some ("RECURSIVE".data) := by
  rw [joinSp_append pre _ (by simp)]
  have hM : joinSp (("RECURSIVE".data) :: post) =
      'R' :: (("ECURSIVE".data) ++ ' ' :: joinSp post) := by
    rw [joinSp_cons_of_ne_nil _ _ hpost_ne]
    simp
  rw [hM]
  apply searchRight_exact
  · exact stepFlag_hit_recursive (joinSp post)
  · have hM2 : ("ECURSIVE".data) ++ ' ' :: joinSp post =
        joinSp (("ECURSIVE".data) :: post) := by
      rw [joinSp_cons_of_ne_nil _ _ hpost_ne]
    rw [hM2]
    apply searchRight_flag_none
    intro T hT
    rcases List.mem_cons.mp hT with rfl | hT2
    · exact ⟨by decide, by decide, by decide⟩
    · exact hpost T hT2

/-- The reserved keywords of the bundle grammar recognized by the tail
matchers. -/
def reservedKws : List Chars :=
  [("GIT".data), ("SOURCE".data), ("BRANCH".data), ("TAG".data),
   ("UPDATE".data), ("NOREMOTE".data), ("MANUAL".data), ("RECURSIVE".data)]

/-- A value token ending in none of the reserved keywords; such a token
can never complete a spurious keyword match in a re-emitted line. -/
def noKwEnding (l : Chars) : Prop := ∀ kw ∈ reservedKws, ¬ kw <:+ l

instance (l : Chars) : Decidable (noKwEnding l) := List.decidableBAll _ reservedKws

theorem wsFree_quoted (url : Chars) (h : ∀ c ∈ url, isUriChar c = true) :
    wsFree ('"' :: url ++ ['"']) := by
  intro c hc
  simp only [List.cons_append, List.mem_cons, List.mem_append,
    List.mem_singleton, List.not_mem_nil, or_false] at hc
  rcases hc with rfl | hc | rfl
  · decide
  · exact uriChar_not_ws c (h c hc)
  · decide

theorem joinSp_split (A B : Chars) (rest : List Chars) :
    joinSp ((A ++ ' ' :: B) :: rest) = joinSp (A :: B :: rest) := by
  cases rest with
  | nil => rfl
  | cons x xs =>
    rw [joinSp_cons_of_ne_nil (A ++ ' ' :: B) (x :: xs) (by simp),
      joinSp_cons_of_ne_nil A (B :: x :: xs) (by simp),
      joinSp_cons_of_ne_nil B (x :: xs) (by simp)]
    simp

theorem joinSp_cons_congr (X : Chars) {l1 l2 : List Chars} (h1 : l1 ≠ []) (h2 : l2 ≠ [])
    (h : joinSp l1 = joinSp l2) : joinSp (X :: l1) = joinSp (X :: l2) := by
  rw [joinSp_cons_of_ne_nil _ _ h1, joinSp_cons_of_ne_nil _ _ h2, h]

theorem joinSpPre_eq (toks : List Chars) (h : toks ≠ []) :
    joinSpPre toks = joinSp toks ++ [' '] := by
  induction toks with
  | nil => exact absurd rfl h
  | cons T rest ih =>
    cases rest with
    | nil => rfl
    | cons y ys =>
      rw [show joinSpPre (T :: y :: ys) = T ++ ' ' :: joinSpPre (y :: ys) from rfl,
        ih (by simp), joinSp_cons_of_ne_nil T (y :: ys) (by simp)]
      simp

theorem tailToks3_ne_nil (flRaw : Option Chars) : tailToks3 flRaw ≠ [] := by
  cases flRaw <;> simp [tailToks3]

theorem tailToks2_ne_nil (rrRaw flRaw : Option Chars) : tailToks2 rrRaw flRaw ≠ [] := by
  cases rrRaw <;> simp [tailToks2]

theorem tailToks_ne_nil (vrRaw : Option (Chars × Chars)) (rrRaw flRaw : Option Chars) :
    tailToks vrRaw rrRaw flRaw ≠ [] := by
  cases vrRaw <;> simp [tailToks]

/-- Sound raw branch-or-tag match value: keyword and character-class
facts from the matcher plus the reserved-keyword side condition. -/
def soundVrRaw (vrRaw : Option (Chars × Chars)) : Prop :=
  ∀ q, vrRaw = some q → (q.1 = ("BRANCH".data) ∨ q.1 = ("TAG".data)) ∧
    q.2 ≠ [] ∧ (∀ c ∈ q.2, isNameChar c = true) ∧ noKwEnding q.2

def soundRrRaw (rrRaw : Option Chars) : Prop :=
  ∀ n, rrRaw = some n → n = ("UPDATE".data) ∨ n = ("NOREMOTE".data)

def soundFlRaw (flRaw : Option Chars) : Prop :=
  ∀ n, flRaw = some n → n = ("MANUAL".data) ∨ n = ("RECURSIVE".data)

theorem soundVr_clear (kw : Chars) (hmem : kw ∈ reservedKws)
    (hb : ¬ kw <:+ ("BRANCH".data)) (ht : ¬ kw <:+ ("TAG".data))
    (q : Chars × Chars)
    (hs : (q.1 = ("BRANCH".data) ∨ q.1 = ("TAG".data)) ∧
      q.2 ≠ [] ∧ (∀ c ∈ q.2, isNameChar c = true) ∧ noKwEnding q.2) :
    (wsFree q.1 ∧ ¬ kw <:+ q.1) ∧ (wsFree q.2 ∧ ¬ kw <:+ q.2) := by
  obtain ⟨hn, _, hc, hk⟩ := hs
  constructor
  · rcases hn with h | h <;> rw [h]
    · exact ⟨by decide, hb⟩
    · exact ⟨by decide, ht⟩
  · exact ⟨wsFree_of_nameChars _ hc, hk kw hmem⟩

theorem soundAttr_clear (kw a1 a2 n : Chars)
    (hs : n = a1 ∨ n = a2)
    (h1 : wsFree a1 ∧ ¬ kw <:+ a1) (h2 : wsFree a2 ∧ ¬ kw <:+ a2) :
    wsFree n ∧ ¬ kw <:+ n := by
  rcases hs with rfl | rfl
  · exact h1
  · exact h2

theorem projectMatch_emit (pname : Chars) (rest : List Chars)
    (hpn : pname ≠ []) (hpnc : ∀ c ∈ pname, isNameChar c = true)
    (hrest : rest ≠ []) :
    projectMatch (joinSp ((("ecbuild_bundle(".data) : Chars) ::
        ("PROJECT".data) :: pname :: rest)) = some pname := by
  rw [joinSp_cons_of_ne_nil _ _ (by simp), joinSp_cons_of_ne_nil _ _ (by simp),
    joinSp_cons_of_ne_nil _ _ hrest]
  obtain ⟨htw, hdw⟩ := takeWhile_append_run pname ' ' (joinSp rest) hpnc (by decide)
  obtain ⟨c0, pn', rfl⟩ := List.exists_cons_of_ne_nil hpn
  have hc0 : isWsPy c0 = false :=
    nameChar_not_ws c0 (hpnc c0 (List.mem_cons_self _ _))
  have h1 : List.dropWhile isWsPy
      (("ecbuild_bundle(".data) ++
        ' ' :: (("PROJECT".data) ++ ' ' :: ((c0 :: pn') ++ ' ' :: joinSp rest))) =
      ("ecbuild_bundle(".data) ++
        ' ' :: (("PROJECT".data) ++ ' ' :: ((c0 :: pn') ++ ' ' :: joinSp rest)) :=
    List.dropWhile_cons_of_neg (by decide)
  simp only [projectMatch, h1, stripLit_append]
  rw [List.dropWhile_cons_of_pos (by decide : isWsPy ' ' = true)]
  have h2 : List.dropWhile isWsPy
      (("PROJECT".data) ++ ' ' :: ((c0 :: pn') ++ ' ' :: joinSp rest)) =
      ("PROJECT".data) ++ ' ' :: ((c0 :: pn') ++ ' ' :: joinSp rest) :=
    List.dropWhile_cons_of_neg (by decide)
  rw [h2]
  simp only [stripLit_append]
  rw [List.takeWhile_cons_of_pos (by decide : isWsPy ' ' = true),
    List.dropWhile_cons_of_pos (by decide : isWsPy ' ' = true)]
  rw [show ((c0 :: pn') ++ ' ' :: joinSp rest : Chars) = c0 :: (pn' ++ ' ' :: joinSp rest)
      from rfl] at htw hdw ⊢
  rw [List.takeWhile_cons_of_neg (show ¬ isWsPy c0 = true by simp [hc0]),
    List.dropWhile_cons_of_neg (show ¬ isWsPy c0 = true by simp [hc0])]
  rw [htw, hdw]
  rfl

theorem rewrite_original_git_toks (content pname url : Chars) (key : Option Chars) :
    (BundleLine.mkRecord content pname ("git".data)
        (BundleLinePart.mk ("GIT".data) false url (['"'])) key).rewrite_original =
      joinSp ((("ecbuild_bundle(".data) : Chars) :: ("PROJECT".data) :: pname ::
        ("GIT".data) :: ('"' :: url ++ ['"']) ::
        tailToks (searchRight stepBranchTag content)
          (searchRight stepRemote content) (searchRight stepFlag content)) := by
  cases hbt : searchRight stepBranchTag content <;>
    cases hrr : searchRight stepRemote content <;>
      cases hfl : searchRight stepFlag content <;>
        simp [BundleLine.rewrite_original, BundleLine.mkRecord, bundleTailFields,
          hbt, hrr, hfl, renderOptPart, BundleLinePart.render, tailToks, tailToks2,
          tailToks3, joinSp, List.append_assoc]

theorem rewrite_original_source_toks (content pname path : Chars) :
    (BundleLine.mkRecord content pname ("source".data)
        (BundleLinePart.mk ("SOURCE".data) false path []) none).rewrite_original =
      joinSp ((("ecbuild_bundle(".data) : Chars) :: ("PROJECT".data) :: pname ::
        ("SOURCE".data) :: path ::
        tailToks (searchRight stepBranchTag content)
          (searchRight stepRemote content) (searchRight stepFlag content)) := by
  cases hbt : searchRight stepBranchTag content <;>
    cases hrr : searchRight stepRemote content <;>
      cases hfl : searchRight stepFlag content <;>
        simp [BundleLine.rewrite_original, BundleLine.mkRecord, bundleTailFields,
          hbt, hrr, hfl, renderOptPart, BundleLinePart.render, tailToks, tailToks2,
          tailToks3, joinSp, List.append_assoc]

theorem sound_tail3_clear (kw : Chars)
    (hm : ¬ kw <:+ ("MANUAL".data)) (hr : ¬ kw <:+ ("RECURSIVE".data))
    (hp : ¬ kw <:+ ([')'] : Chars))
    (flRaw : Option Chars) (hfl : soundFlRaw flRaw) :
    ∀ T ∈ tailToks3 flRaw, wsFree T ∧ ¬ kw <:+ T :=
  tailToks3_clear kw flRaw
    (fun n hn2 => soundAttr_clear kw _ _ n (hfl n hn2) ⟨by decide, hm⟩ ⟨by decide, hr⟩)
    hp

theorem sound_tail2_clear (kw : Chars)
    (hu : ¬ kw <:+ ("UPDATE".data)) (hn : ¬ kw <:+ ("NOREMOTE".data))
    (hm : ¬ kw <:+ ("MANUAL".data)) (hr : ¬ kw <:+ ("RECURSIVE".data))
    (hno : ¬ kw <:+ ("None".data)) (hp : ¬ kw <:+ ([')'] : Chars))
    (rrRaw flRaw : Option Chars) (hrr : soundRrRaw rrRaw) (hfl : soundFlRaw flRaw) :
    ∀ T ∈ tailToks2 rrRaw flRaw, wsFree T ∧ ¬ kw <:+ T :=
  tailToks2_clear kw rrRaw flRaw
    (fun n hn2 => soundAttr_clear kw _ _ n (hrr n hn2) ⟨by decide, hu⟩ ⟨by decide, hn⟩)
    (fun n hn2 => soundAttr_clear kw _ _ n (hfl n hn2) ⟨by decide, hm⟩ ⟨by decide, hr⟩)
    hno hp

theorem sound_tail_clear (kw : Chars) (hmem : kw ∈ reservedKws)
    (hb : ¬ kw <:+ ("BRANCH".data)) (ht : ¬ kw <:+ ("TAG".data))
    (hu : ¬ kw <:+ ("UPDATE".data)) (hn : ¬ kw <:+ ("NOREMOTE".data))
    (hm : ¬ kw <:+ ("MANUAL".data)) (hr : ¬ kw <:+ ("RECURSIVE".data))
    (hno : ¬ kw <:+ ("None".data)) (hp : ¬ kw <:+ ([')'] : Chars))
    (vrRaw : Option (Chars × Chars)) (rrRaw flRaw : Option Chars)
    (hvr : soundVrRaw vrRaw) (hrr : soundRrRaw rrRaw) (hfl : soundFlRaw flRaw) :
    ∀ T ∈ tailToks vrRaw rrRaw flRaw, wsFree T ∧ ¬ kw <:+ T :=
  tailToks_clear kw vrRaw rrRaw flRaw
    (fun q hq => soundVr_clear kw hmem hb ht q (hvr q hq))
    (fun n hn2 => soundAttr_clear kw _ _ n (hrr n hn2) ⟨by decide, hu⟩ ⟨by decide, hn⟩)
    (fun n hn2 => soundAttr_clear kw _ _ n (hfl n hn2) ⟨by decide, hm⟩ ⟨by decide, hr⟩)
    hno hp

theorem sound_tail_none_clear (kw : Chars)
    (hu : ¬ kw <:+ ("UPDATE".data)) (hn : ¬ kw <:+ ("NOREMOTE".data))
    (hm : ¬ kw <:+ ("MANUAL".data)) (hr : ¬ kw <:+ ("RECURSIVE".data))
    (hno : ¬ kw <:+ ("None".data)) (hp : ¬ kw <:+ ([')'] : Chars))
    (rrRaw flRaw : Option Chars) (hrr : soundRrRaw rrRaw) (hfl : soundFlRaw flRaw) :
    ∀ T ∈ tailToks none rrRaw flRaw, wsFree T ∧ ¬ kw <:+ T := by
  intro T hT
  simp only [tailToks, List.cons_append, List.nil_append, List.mem_cons] at hT
  rcases hT with rfl | hT
  · exact ⟨by decide, hno⟩
  · exact sound_tail2_clear kw hu hn hm hr hno hp rrRaw flRaw hrr hfl T hT

theorem sound_tail_rrnone_clear (kw : Chars) (hmem : kw ∈ reservedKws)
    (hb : ¬ kw <:+ ("BRANCH".data)) (ht : ¬ kw <:+ ("TAG".data))
    (hm : ¬ kw <:+ ("MANUAL".data)) (hr : ¬ kw <:+ ("RECURSIVE".data))
    (hno : ¬ kw <:+ ("None".data)) (hp : ¬ kw <:+ ([')'] : Chars))
    (vrRaw : Option (Chars × Chars)) (flRaw : Option Chars)
    (hvr : soundVrRaw vrRaw) (hfl : soundFlRaw flRaw) :
    ∀ T ∈ tailToks vrRaw none flRaw, wsFree T ∧ ¬ kw <:+ T :=
  tailToks_clear kw vrRaw none flRaw
    (fun q hq => soundVr_clear kw hmem hb ht q (hvr q hq))
    (fun n hn2 => Option.noConfusion hn2)
    (fun n hn2 => soundAttr_clear kw _ _ n (hfl n hn2) ⟨by decide, hm⟩ ⟨by decide, hr⟩)
    hno hp

theorem sound_tail_flnone_clear (kw : Chars) (hmem : kw ∈ reservedKws)
    (hb : ¬ kw <:+ ("BRANCH".data)) (ht : ¬ kw <:+ ("TAG".data))
    (hu : ¬ kw <:+ ("UPDATE".data)) (hn : ¬ kw <:+ ("NOREMOTE".data))
    (hno : ¬ kw <:+ ("None".data)) (hp : ¬ kw <:+ ([')'] : Chars))
    (vrRaw : Option (Chars × Chars)) (rrRaw : Option Chars)
    (hvr : soundVrRaw vrRaw) (hrr : soundRrRaw rrRaw) :
    ∀ T ∈ tailToks vrRaw rrRaw none, wsFree T ∧ ¬ kw <:+ T :=
  tailToks_clear kw vrRaw rrRaw none
    (fun q hq => soundVr_clear kw hmem hb ht q (hvr q hq))
    (fun n hn2 => soundAttr_clear kw _ _ n (hrr n hn2) ⟨by decide, hu⟩ ⟨by decide, hn⟩)
    (fun n hn2 => Option.noConfusion hn2)
    hno hp

theorem gitE_git (pname url : Chars) (vrRaw : Option (Chars × Chars)) (rrRaw flRaw : Option Chars)
    (hurlne : url ≠ []) (hurlc : ∀ c ∈ url, isUriChar c = true)
    (hvr : soundVrRaw vrRaw) (hrr : soundRrRaw rrRaw) (hfl : soundFlRaw flRaw) :
    searchRight stepGit (joinSp ((("ecbuild_bundle(".data) : Chars) ::
      ("PROJECT".data) :: pname :: ("GIT".data) :: ('"' :: url ++ ['"']) ::
      tailToks vrRaw rrRaw flRaw)) = some url :=
  searchRight_git_at [("ecbuild_bundle(".data), ("PROJECT".data), pname] url
    (tailToks vrRaw rrRaw flRaw) hurlne hurlc (tailToks_ne_nil _ _ _)
    (sound_tail_clear ("GIT".data) (by decide) (by decide) (by decide) (by decide)
      (by decide) (by decide) (by decide) (by decide) (by decide)
      vrRaw rrRaw flRaw hvr hrr hfl)

theorem gitE_source_none (pname url : Chars) (vrRaw : Option (Chars × Chars))
    (rrRaw flRaw : Option Chars)
    (hpnc : ∀ c ∈ pname, isNameChar c = true) (hpnk : noKwEnding pname)
    (hurlc : ∀ c ∈ url, isUriChar c = true)
    (hvr : soundVrRaw vrRaw) (hrr : soundRrRaw rrRaw) (hfl : soundFlRaw flRaw) :
    searchRight stepSource (joinSp ((("ecbuild_bundle(".data) : Chars) ::
      ("PROJECT".data) :: pname :: ("GIT".data) :: ('"' :: url ++ ['"']) ::
      tailToks vrRaw rrRaw flRaw)) = none := by
  apply searchRight_source_none
  intro T hT
  rcases List.mem_cons.mp hT with rfl | hT
  · exact ⟨by decide, by decide⟩
  rcases List.mem_cons.mp hT with rfl | hT
  · exact ⟨by decide, by decide⟩
  rcases List.mem_cons.mp hT with rfl | hT
  · exact ⟨wsFree_of_nameChars _ hpnc, hpnk _ (by decide)⟩
  rcases List.mem_cons.mp hT with rfl | hT
  · exact ⟨by decide, by decide⟩
  rcases List.mem_cons.mp hT with rfl | hT
  · exact ⟨wsFree_quoted url hurlc, not_suffix_quoted _ _ (by decide) (by decide)⟩
  exact sound_tail_clear ("SOURCE".data) (by decide) (by decide) (by decide) (by decide)
    (by decide) (by decide) (by decide) (by decide) (by decide)
    vrRaw rrRaw flRaw hvr hrr hfl T hT

theorem gitE_bt (pname url : Chars) (vrRaw : Option (Chars × Chars)) (rrRaw flRaw : Option Chars)
    (hpnc : ∀ c ∈ pname, isNameChar c = true) (hpnk : noKwEnding pname)
    (hurlc : ∀ c ∈ url, isUriChar c = true)
    (hvr : soundVrRaw vrRaw) (hrr : soundRrRaw rrRaw) (hfl : soundFlRaw flRaw) :
    searchRight stepBranchTag (joinSp ((("ecbuild_bundle(".data) : Chars) ::
      ("PROJECT".data) :: pname :: ("GIT".data) :: ('"' :: url ++ ['"']) ::
      tailToks vrRaw rrRaw flRaw)) = vrRaw := by
  cases vrRaw with
  | none =>
    apply searchRight_bt_none
    intro T hT
    rcases List.mem_cons.mp hT with rfl | hT
    · exact ⟨by decide, by decide, by decide⟩
    rcases List.mem_cons.mp hT with rfl | hT
    · exact ⟨by decide, by decide, by decide⟩
    rcases List.mem_cons.mp hT with rfl | hT
    · exact ⟨wsFree_of_nameChars _ hpnc, hpnk _ (by decide), hpnk _ (by decide)⟩
    rcases List.mem_cons.mp hT with rfl | hT
    · exact ⟨by decide, by decide, by decide⟩
    rcases List.mem_cons.mp hT with rfl | hT
    · exact ⟨wsFree_quoted url hurlc, not_suffix_quoted _ _ (by decide) (by decide),
        not_suffix_quoted _ _ (by decide) (by decide)⟩
    have h1 := sound_tail_none_clear ("BRANCH".data) (by decide) (by decide) (by decide)
      (by decide) (by decide) (by decide) rrRaw flRaw hrr hfl T hT
    have h2 := sound_tail_none_clear ("TAG".data) (by decide) (by decide) (by decide)
      (by decide) (by decide) (by decide) rrRaw flRaw hrr hfl T hT
    exact ⟨h1.1, h1.2, h2.2⟩
  | some q =>
    obtain ⟨q1, q2⟩ := q
    obtain ⟨hkw, hvne, hvc, hvk⟩ := hvr (q1, q2) rfl
    have hclear : ∀ T ∈ tailToks2 rrRaw flRaw,
        wsFree T ∧ ¬ ("BRANCH".data) <:+ T ∧ ¬ ("TAG".data) <:+ T := by
      intro T hT
      have h1 := sound_tail2_clear ("BRANCH".data) (by decide) (by decide) (by decide)
        (by decide) (by decide) (by decide) rrRaw flRaw hrr hfl T hT
      have h2 := sound_tail2_clear ("TAG".data) (by decide) (by decide) (by decide)
        (by decide) (by decide) (by decide) rrRaw flRaw hrr hfl T hT
      exact ⟨h1.1, h1.2, h2.2⟩
    rcases hkw with rfl | rfl
    · exact searchRight_bt_at_branch
        [("ecbuild_bundle(".data), ("PROJECT".data), pname, ("GIT".data), '"' :: url ++ ['"']]
        q2 (tailToks2 rrRaw flRaw) hvne hvc (hvk _ (by decide)) (hvk _ (by decide))
        (tailToks2_ne_nil _ _) hclear
    · exact searchRight_bt_at_tag
        [("ecbuild_bundle(".data), ("PROJECT".data), pname, ("GIT".data), '"' :: url ++ ['"']]
        q2 (tailToks2 rrRaw flRaw) hvne hvc (hvk _ (by decide)) (hvk _ (by decide))
        (tailToks2_ne_nil _ _) hclear

theorem gitE_remote (pname url : Chars) (vrRaw : Option (Chars × Chars))
    (rrRaw flRaw : Option Chars)
    (hpnc : ∀ c ∈ pname, isNameChar c = true) (hpnk : noKwEnding pname)
    (hurlc : ∀ c ∈ url, isUriChar c = true)
    (hvr : soundVrRaw vrRaw) (hrr : soundRrRaw rrRaw) (hfl : soundFlRaw flRaw) :
    searchRight stepRemote (joinSp ((("ecbuild_bundle(".data) : Chars) ::
      ("PROJECT".data) :: pname :: ("GIT".data) :: ('"' :: url ++ ['"']) ::
      tailToks vrRaw rrRaw flRaw)) = rrRaw := by
  cases rrRaw with
  | none =>
    apply searchRight_remote_none
    intro T hT
    rcases List.mem_cons.mp hT with rfl | hT
    · exact ⟨by decide, by decide, by decide⟩
    rcases List.mem_cons.mp hT with rfl | hT
    · exact ⟨by decide, by decide, by decide⟩
    rcases List.mem_cons.mp hT with rfl | hT
    · exact ⟨wsFree_of_nameChars _ hpnc, hpnk _ (by decide), hpnk _ (by decide)⟩
    rcases List.mem_cons.mp hT with rfl | hT
    · exact ⟨by decide, by decide, by decide⟩
    rcases List.mem_cons.mp hT with rfl | hT
    · exact ⟨wsFree_quoted url hurlc, not_suffix_quoted _ _ (by decide) (by decide),
        not_suffix_quoted _ _ (by decide) (by decide)⟩
    have h1 := sound_tail_rrnone_clear ("UPDATE".data) (by decide) (by decide) (by decide)
      (by decide) (by decide) (by decide) (by decide)
      vrRaw flRaw hvr hfl T hT
    have h2 := sound_tail_rrnone_clear ("NOREMOTE".data) (by decide) (by decide) (by decide)
      (by decide) (by decide) (by decide) (by decide)
      vrRaw flRaw hvr hfl T hT
    exact ⟨h1.1, h1.2, h2.2⟩
  | some n =>
    have hpost : ∀ T ∈ tailToks3 flRaw,
        wsFree T ∧ ¬ ("UPDATE".data) <:+ T ∧ ¬ ("NOREMOTE".data) <:+ T := by
      intro T hT
      have h1 := sound_tail3_clear ("UPDATE".data) (by decide) (by decide) (by decide)
        flRaw hfl T hT
      have h2 := sound_tail3_clear ("NOREMOTE".data) (by decide) (by decide) (by decide)
        flRaw hfl T hT
      exact ⟨h1.1, h1.2, h2.2⟩
    rcases hrr n rfl with rfl | rfl
    · cases vrRaw with
      | none =>
        exact searchRight_remote_at_update
          [("ecbuild_bundle(".data), ("PROJECT".data), pname, ("GIT".data),
           '"' :: url ++ ['"'], ("None".data)]
          (tailToks3 flRaw) (tailToks3_ne_nil _) hpost
      | some q =>
        exact searchRight_remote_at_update
          [("ecbuild_bundle(".data), ("PROJECT".data), pname, ("GIT".data),
           '"' :: url ++ ['"'], q.1, q.2]
          (tailToks3 flRaw) (tailToks3_ne_nil _) hpost
    · cases vrRaw with
      | none =>
        exact searchRight_remote_at_noremote
          [("ecbuild_bundle(".data), ("PROJECT".data), pname, ("GIT".data),
           '"' :: url ++ ['"'], ("None".data)]
          (tailToks3 flRaw) (tailToks3_ne_nil _) hpost
      | some q =>
        exact searchRight_remote_at_noremote
          [("ecbuild_bundle(".data), ("PROJECT".data), pname, ("GIT".data),
           '"' :: url ++ ['"'], q.1, q.2]
          (tailToks3 flRaw) (tailToks3_ne_nil _) hpost

theorem gitE_flag (pname url : Chars) (vrRaw : Option (Chars × Chars))
    (rrRaw flRaw : Option Chars)
    (hpnc : ∀ c ∈ pname, isNameChar c = true) (hpnk : noKwEnding pname)
    (hurlc : ∀ c ∈ url, isUriChar c = true)
    (hvr : soundVrRaw vrRaw) (hrr : soundRrRaw rrRaw) (hfl : soundFlRaw flRaw) :
    searchRight stepFlag (joinSp ((("ecbuild_bundle(".data) : Chars) ::
      ("PROJECT".data) :: pname :: ("GIT".data) :: ('"' :: url ++ ['"']) ::
      tailToks vrRaw rrRaw flRaw)) = flRaw := by
  cases flRaw with
  | none =>
    apply searchRight_flag_none
    intro T hT
    rcases List.mem_cons.mp hT with rfl | hT
    · exact ⟨by decide, by decide, by decide⟩
    rcases List.mem_cons.mp hT with rfl | hT
    · exact ⟨by decide, by decide, by decide⟩
    rcases List.mem_cons.mp hT with rfl | hT
    · exact ⟨wsFree_of_nameChars _ hpnc, hpnk _ (by decide), hpnk _ (by decide)⟩
    rcases List.mem_cons.mp hT with rfl | hT
    · exact ⟨by decide, by decide, by decide⟩
    rcases List.mem_cons.mp hT with rfl | hT
    · exact ⟨wsFree_quoted url hurlc, not_suffix_quoted _ _ (by decide) (by decide),
        not_suffix_quoted _ _ (by decide) (by decide)⟩
    have h1 := sound_tail_flnone_clear ("MANUAL".data) (by decide) (by decide) (by decide)
      (by decide) (by decide) (by decide) (by decide)
      vrRaw rrRaw hvr hrr T hT
    have h2 := sound_tail_flnone_clear ("RECURSIVE".data) (by decide) (by decide) (by decide)
      (by decide) (by decide) (by decide) (by decide)
      vrRaw rrRaw hvr hrr T hT
    exact ⟨h1.1, h1.2, h2.2⟩
  | some n =>
    have hpost : ∀ T ∈ ([([')'] : Chars)] : List Chars),
        wsFree T ∧ ¬ ("MANUAL".data) <:+ T ∧ ¬ ("RECURSIVE".data) <:+ T := by
      intro T hT
      rw [List.mem_singleton] at hT
      subst hT
      exact ⟨by decide, by decide, by decide⟩
    rcases hfl n rfl with rfl | rfl
    · cases vrRaw with
      | none =>
        cases rrRaw with
        | none =>
          exact searchRight_flag_at_manual
            [("ecbuild_bundle(".data), ("PROJECT".data), pname, ("GIT".data),
             '"' :: url ++ ['"'], ("None".data), ("None".data)]
            [([')'] : Chars)] (by simp) hpost
        | some m =>
          exact searchRight_flag_at_manual
            [("ecbuild_bundle(".data), ("PROJECT".data), pname, ("GIT".data),
             '"' :: url ++ ['"'], ("None".data), m]
            [([')'] : Chars)] (by simp) hpost
      | some q =>
        cases rrRaw with
        | none =>
          exact searchRight_flag_at_manual
            [("ecbuild_bundle(".data), ("PROJECT".data), pname, ("GIT".data),
             '"' :: url ++ ['"'], q.1, q.2, ("None".data)]
            [([')'] : Chars)] (by simp) hpost
        | some m =>
          exact searchRight_flag_at_manual
            [("ecbuild_bundle(".data), ("PROJECT".data), pname, ("GIT".data),
             '"' :: url ++ ['"'], q.1, q.2, m]
            [([')'] : Chars)] (by simp) hpost
    · cases vrRaw with
      | none =>
        cases rrRaw with
        | none =>
          exact searchRight_flag_at_recursive
            [("ecbuild_bundle(".data), ("PROJECT".data), pname, ("GIT".data),
             '"' :: url ++ ['"'], ("None".data), ("None".data)]
            [([')'] : Chars)] (by simp) hpost
        | some m =>
          exact searchRight_flag_at_recursive
            [("ecbuild_bundle(".data), ("PROJECT".data), pname, ("GIT".data),
             '"' :: url ++ ['"'], ("None".data), m]
            [([')'] : Chars)] (by simp) hpost
      | some q =>
        cases rrRaw with
        | none =>
          exact searchRight_flag_at_recursive
            [("ecbuild_bundle(".data), ("PROJECT".data), pname, ("GIT".data),
             '"' :: url ++ ['"'], q.1, q.2, ("None".data)]
            [([')'] : Chars)] (by simp) hpost
        | some m =>
          exact searchRight_flag_at_recursive
            [("ecbuild_bundle(".data), ("PROJECT".data), pname, ("GIT".data),
             '"' :: url ++ ['"'], q.1, q.2, m]
            [([')'] : Chars)] (by simp) hpost

theorem sourceE_source (pname path : Chars) (vrRaw : Option (Chars × Chars))
    (rrRaw flRaw : Option Chars)
    (hpne : path ≠ []) (hpathc : ∀ c ∈ path, isUriChar c = true)
    (hpathk : noKwEnding path)
    (hvr : soundVrRaw vrRaw) (hrr : soundRrRaw rrRaw) (hfl : soundFlRaw flRaw) :
    searchRight stepSource (joinSp ((("ecbuild_bundle(".data) : Chars) ::
      ("PROJECT".data) :: pname :: ("SOURCE".data) :: path ::
      tailToks vrRaw rrRaw flRaw)) = some path :=
  searchRight_source_at [("ecbuild_bundle(".data), ("PROJECT".data), pname] path
    (tailToks vrRaw rrRaw flRaw) hpne hpathc (hpathk _ (by decide))
    (tailToks_ne_nil _ _ _)
    (sound_tail_clear ("SOURCE".data) (by decide) (by decide) (by decide) (by decide)
      (by decide) (by decide) (by decide) (by decide) (by decide)
      vrRaw rrRaw flRaw hvr hrr hfl)

theorem sourceE_git_none (pname path : Chars) (vrRaw : Option (Chars × Chars))
    (rrRaw flRaw : Option Chars)
    (hpnc : ∀ c ∈ pname, isNameChar c = true) (hpnk : noKwEnding pname)
    (hpathc : ∀ c ∈ path, isUriChar c = true) (hpathk : noKwEnding path)
    (hvr : soundVrRaw vrRaw) (hrr : soundRrRaw rrRaw) (hfl : soundFlRaw flRaw) :
    searchRight stepGit (joinSp ((("ecbuild_bundle(".data) : Chars) ::
      ("PROJECT".data) :: pname :: ("SOURCE".data) :: path ::
      tailToks vrRaw rrRaw flRaw)) = none := by
  apply searchRight_git_none
  intro T hT
  rcases List.mem_cons.mp hT with rfl | hT
  · exact ⟨by decide, by decide⟩
  rcases List.mem_cons.mp hT with rfl | hT
  · exact ⟨by decide, by decide⟩
  rcases List.mem_cons.mp hT with rfl | hT
  · exact ⟨wsFree_of_nameChars _ hpnc, hpnk _ (by decide)⟩
  rcases List.mem_cons.mp hT with rfl | hT
  · exact ⟨by decide, by decide⟩
  rcases List.mem_cons.mp hT with rfl | hT
  · exact ⟨wsFree_of_uriChars _ hpathc, hpathk _ (by decide)⟩
  exact sound_tail_clear ("GIT".data) (by decide) (by decide) (by decide) (by decide)
    (by decide) (by decide) (by decide) (by decide) (by decide)
    vrRaw rrRaw flRaw hvr hrr hfl T hT

theorem sourceE_bt (pname path : Chars) (vrRaw : Option (Chars × Chars))
    (rrRaw flRaw : Option Chars)
    (hpnc : ∀ c ∈ pname, isNameChar c = true) (hpnk : noKwEnding pname)
    (hpathc : ∀ c ∈ path, isUriChar c = true) (hpathk : noKwEnding path)
    (hvr : soundVrRaw vrRaw) (hrr : soundRrRaw rrRaw) (hfl : soundFlRaw flRaw) :
    searchRight stepBranchTag (joinSp ((("ecbuild_bundle(".data) : Chars) ::
      ("PROJECT".data) :: pname :: ("SOURCE".data) :: path ::
      tailToks vrRaw rrRaw flRaw)) = vrRaw := by
  cases vrRaw with
  | none =>
    apply searchRight_bt_none
    intro T hT
    rcases List.mem_cons.mp hT with rfl | hT
    · exact ⟨by decide, by decide, by decide⟩
    rcases List.mem_cons.mp hT with rfl | hT
    · exact ⟨by decide, by decide, by decide⟩
    rcases List.mem_cons.mp hT with rfl | hT
    · exact ⟨wsFree_of_nameChars _ hpnc, hpnk _ (by decide), hpnk _ (by decide)⟩
    rcases List.mem_cons.mp hT with rfl | hT
    · exact ⟨by decide, by decide, by decide⟩
    rcases List.mem_cons.mp hT with rfl | hT
    · exact ⟨wsFree_of_uriChars _ hpathc, hpathk _ (by decide), hpathk _ (by decide)⟩
    have h1 := sound_tail_none_clear ("BRANCH".data) (by decide) (by decide) (by decide)
      (by decide) (by decide) (by decide) rrRaw flRaw hrr hfl T hT
    have h2 := sound_tail_none_clear ("TAG".data) (by decide) (by decide) (by decide)
      (by decide) (by decide) (by decide) rrRaw flRaw hrr hfl T hT
    exact ⟨h1.1, h1.2, h2.2⟩
  | some q =>
    obtain ⟨q1, q2⟩ := q
    obtain ⟨hkw, hvne, hvc, hvk⟩ := hvr (q1, q2) rfl
    have hclear : ∀ T ∈ tailToks2 rrRaw flRaw,
        wsFree T ∧ ¬ ("BRANCH".data) <:+ T ∧ ¬ ("TAG".data) <:+ T := by
      intro T hT
      have h1 := sound_tail2_clear ("BRANCH".data) (by decide) (by decide) (by decide)
        (by decide) (by decide) (by decide) rrRaw flRaw hrr hfl T hT
      have h2 := sound_tail2_clear ("TAG".data) (by decide) (by decide) (by decide)
        (by decide) (by decide) (by decide) rrRaw flRaw hrr hfl T hT
      exact ⟨h1.1, h1.2, h2.2⟩
    rcases hkw with rfl | rfl
    · exact searchRight_bt_at_branch
        [("ecbuild_bundle(".data), ("PROJECT".data), pname, ("SOURCE".data), path]
        q2 (tailToks2 rrRaw flRaw) hvne hvc (hvk _ (by decide)) (hvk _ (by decide))
        (tailToks2_ne_nil _ _) hclear
    · exact searchRight_bt_at_tag
        [("ecbuild_bundle(".data), ("PROJECT".data), pname, ("SOURCE".data), path]
        q2 (tailToks2 rrRaw flRaw) hvne hvc (hvk _ (by decide)) (hvk _ (by decide))
        (tailToks2_ne_nil _ _) hclear

theorem sourceE_remote (pname path : Chars) (vrRaw : Option (Chars × Chars))
    (rrRaw flRaw : Option Chars)
    (hpnc : ∀ c ∈ pname, isNameChar c = true) (hpnk : noKwEnding pname)
    (hpathc : ∀ c ∈ path, isUriChar c = true) (hpathk : noKwEnding path)
    (hvr : soundVrRaw vrRaw) (hrr : soundRrRaw rrRaw) (hfl : soundFlRaw flRaw) :
    searchRight stepRemote (joinSp ((("ecbuild_bundle(".data) : Chars) ::
      ("PROJECT".data) :: pname :: ("SOURCE".data) :: path ::
      tailToks vrRaw rrRaw flRaw)) = rrRaw := by
  cases rrRaw with
  | none =>
    apply searchRight_remote_none
    intro T hT
    rcases List.mem_cons.mp hT with rfl | hT
    · exact ⟨by decide, by decide, by decide⟩
    rcases List.mem_cons.mp hT with rfl | hT
    · exact ⟨by decide, by decide, by decide⟩
    rcases List.mem_cons.mp hT with rfl | hT
    · exact ⟨wsFree_of_nameChars _ hpnc, hpnk _ (by decide), hpnk _ (by decide)⟩
    rcases List.mem_cons.mp hT with rfl | hT
    · exact ⟨by decide, by decide, by decide⟩
    rcases List.mem_cons.mp hT with rfl | hT
    · exact ⟨wsFree_of_uriChars _ hpathc, hpathk _ (by decide), hpathk _ (by decide)⟩
    have h1 := sound_tail_rrnone_clear ("UPDATE".data) (by decide) (by decide) (by decide)
      (by decide) (by decide) (by decide) (by decide)
      vrRaw flRaw hvr hfl T hT
    have h2 := sound_tail_rrnone_clear ("NOREMOTE".data) (by decide) (by decide) (by decide)
      (by decide) (by decide) (by decide) (by decide)
      vrRaw flRaw hvr hfl T hT
    exact ⟨h1.1, h1.2, h2.2⟩
  | some n =>
    have hpost : ∀ T ∈ tailToks3 flRaw,
        wsFree T ∧ ¬ ("UPDATE".data) <:+ T ∧ ¬ ("NOREMOTE".data) <:+ T := by
      intro T hT
      have h1 := sound_tail3_clear ("UPDATE".data) (by decide) (by decide) (by decide)
        flRaw hfl T hT
      have h2 := sound_tail3_clear ("NOREMOTE".data) (by decide) (by decide) (by decide)
        flRaw hfl T hT
      exact ⟨h1.1, h1.2, h2.2⟩
    rcases hrr n rfl with rfl | rfl
    · cases vrRaw with
      | none =>
        exact searchRight_remote_at_update
          [("ecbuild_bundle(".data), ("PROJECT".data), pname, ("SOURCE".data),
           path, ("None".data)]
          (tailToks3 flRaw) (tailToks3_ne_nil _) hpost
      | some q =>
        exact searchRight_remote_at_update
          [("ecbuild_bundle(".data), ("PROJECT".data), pname, ("SOURCE".data),
           path, q.1, q.2]
          (tailToks3 flRaw) (tailToks3_ne_nil _) hpost
    · cases vrRaw with
      | none =>
        exact searchRight_remote_at_noremote
          [("ecbuild_bundle(".data), ("PROJECT".data), pname, ("SOURCE".data),
           path, ("None".data)]
          (tailToks3 flRaw) (tailToks3_ne_nil _) hpost
      | some q =>
        exact searchRight_remote_at_noremote
          [("ecbuild_bundle(".data), ("PROJECT".data), pname, ("SOURCE".data),
           path, q.1, q.2]
          (tailToks3 flRaw) (tailToks3_ne_nil _) hpost

theorem sourceE_flag (pname path : Chars) (vrRaw : Option (Chars × Chars))
    (rrRaw flRaw : Option Chars)
    (hpnc : ∀ c ∈ pname, isNameChar c = true) (hpnk : noKwEnding pname)
    (hpathc : ∀ c ∈ path, isUriChar c = true) (hpathk : noKwEnding path)
    (hvr : soundVrRaw vrRaw) (hrr : soundRrRaw rrRaw) (hfl : soundFlRaw flRaw) :
    searchRight stepFlag (joinSp ((("ecbuild_bundle(".data) : Chars) ::
      ("PROJECT".data) :: pname :: ("SOURCE".data) :: path ::
      tailToks vrRaw rrRaw flRaw)) = flRaw := by
  cases flRaw with
  | none =>
    apply searchRight_flag_none
    intro T hT
    rcases List.mem_cons.mp hT with rfl | hT
    · exact ⟨by decide, by decide, by decide⟩
    rcases List.mem_cons.mp hT with rfl | hT
    · exact ⟨by decide, by decide, by decide⟩
    rcases List.mem_cons.mp hT with rfl | hT
    · exact ⟨wsFree_of_nameChars _ hpnc, hpnk _ (by decide), hpnk _ (by decide)⟩
    rcases List.mem_cons.mp hT with rfl | hT
    · exact ⟨by decide, by decide, by decide⟩
    rcases List.mem_cons.mp hT with rfl | hT
    · exact ⟨wsFree_of_uriChars _ hpathc, hpathk _ (by decide), hpathk _ (by decide)⟩
    have h1 := sound_tail_flnone_clear ("MANUAL".data) (by decide) (by decide) (by decide)
      (by decide) (by decide) (by decide) (by decide)
      vrRaw rrRaw hvr hrr T hT
    have h2 := sound_tail_flnone_clear ("RECURSIVE".data) (by decide) (by decide) (by decide)
      (by decide) (by decide) (by decide) (by decide)
      vrRaw rrRaw hvr hrr T hT
    exact ⟨h1.1, h1.2, h2.2⟩
  | some n =>
    have hpost : ∀ T ∈ ([([')'] : Chars)] : List Chars),
        wsFree T ∧ ¬ ("MANUAL".data) <:+ T ∧ ¬ ("RECURSIVE".data) <:+ T := by
      intro T hT
      rw [List.mem_singleton] at hT
      subst hT
      exact ⟨by decide, by decide, by decide⟩
    rcases hfl n rfl with rfl | rfl
    · cases vrRaw with
      | none =>
        cases rrRaw with
        | none =>
          exact searchRight_flag_at_manual
            [("ecbuild_bundle(".data), ("PROJECT".data), pname, ("SOURCE".data),
             path, ("None".data), ("None".data)]
            [([')'] : Chars)] (by simp) hpost
        | some m =>
          exact searchRight_flag_at_manual
            [("ecbuild_bundle(".data), ("PROJECT".data), pname, ("SOURCE".data),
             path, ("None".data), m]
            [([')'] : Chars)] (by simp) hpost
      | some q =>
        cases rrRaw with
        | none =>
          exact searchRight_flag_at_manual
            [("ecbuild_bundle(".data), ("PROJECT".data), pname, ("SOURCE".data),
             path, q.1, q.2, ("None".data)]
            [([')'] : Chars)] (by simp) hpost
        | some m =>
          exact searchRight_flag_at_manual
            [("ecbuild_bundle(".data), ("PROJECT".data), pname, ("SOURCE".data),
             path, q.1, q.2, m]
            [([')'] : Chars)] (by simp) hpost
    · cases vrRaw with
      | none =>
        cases rrRaw with
        | none =>
          exact searchRight_flag_at_recursive
            [("ecbuild_bundle(".data), ("PROJECT".data), pname, ("SOURCE".data),
             path, ("None".data), ("None".data)]
            [([')'] : Chars)] (by simp) hpost
        | some m =>
          exact searchRight_flag_at_recursive
            [("ecbuild_bundle(".data), ("PROJECT".data), pname, ("SOURCE".data),
             path, ("None".data), m]
            [([')'] : Chars)] (by simp) hpost
      | some q =>
        cases rrRaw with
        | none =>
          exact searchRight_flag_at_recursive
            [("ecbuild_bundle(".data), ("PROJECT".data), pname, ("SOURCE".data),
             path, q.1, q.2, ("None".data)]
            [([')'] : Chars)] (by simp) hpost
        | some m =>
          exact searchRight_flag_at_recursive
            [("ecbuild_bundle(".data), ("PROJECT".data), pname, ("SOURCE".data),
             path, q.1, q.2, m]
            [([')'] : Chars)] (by simp) hpost

/-- C7: for every component-declaration line that parses successfully,
with a non-empty project name and no value token (project name, version
reference value, SOURCE path) ending in a reserved keyword, parsing the
emitted normalized text succeeds and emitting again yields text
identical to the first emission — re-serialization is idempotent after
one normalization pass. -/
theorem c7_reserialize_idempotent (content : Chars) (bl : BundleLine)
    (hp : BundleLine.parse content = .ok bl)
    (hname : bl.project_name ≠ [])
    (hnk : noKwEnding bl.project_name)
    (hvr : ∀ p, bl.version_ref = some p → noKwEnding p.value)
    (hsp : bl.source_reference_type = ("source".data) →
      noKwEnding bl.source_reference.value) :
    ∃ bl2, BundleLine.parse bl.rewrite_original = .ok bl2 ∧
      bl2.rewrite_original = bl.rewrite_original := by
  obtain ⟨pname, hpm, hcase⟩ := BundleLine.parse_cases_of_ok content bl hp
  have hrrS : soundRrRaw (searchRight stepRemote content) :=
    fun n hn => searchRight_values stepRemote_values content n hn
  have hflS : soundFlRaw (searchRight stepFlag content) :=
    fun n hn => searchRight_values stepFlag_values content n hn
  rcases hcase with ⟨url, key, hgit, hsrcn, hkey, hbl⟩ | ⟨path, hgitn, hsrc, hbl⟩
  · have hpn : pname ≠ [] := by rw [hbl] at hname; exact hname
    have hpnc := projectMatch_sound content pname hpm
    have hpnk : noKwEnding pname := by rw [hbl] at hnk; exact hnk
    obtain ⟨hurlne, hurlc⟩ := searchRight_values stepGit_sound content url hgit
    have hvrS : soundVrRaw (searchRight stepBranchTag content) := by
      intro q hq
      have hs := searchRight_values stepBranchTag_sound content q hq
      refine ⟨hs.1, hs.2.1, hs.2.2, ?_⟩
      have hv2 : bl.version_ref = some (BundleLinePart.mk q.1 false q.2 []) := by
        rw [hbl]
        show ((bundleTailFields content).2.1 : Option BundleLinePart) = _
        simp only [bundleTailFields, hq, Option.map_some']
      exact hvr _ hv2
    have hE : bl.rewrite_original =
        joinSp ((("ecbuild_bundle(".data) : Chars) :: ("PROJECT".data) :: pname ::
          ("GIT".data) :: ('"' :: url ++ ['"']) ::
          tailToks (searchRight stepBranchTag content)
            (searchRight stepRemote content) (searchRight stepFlag content)) := by
      rw [hbl]
      exact rewrite_original_git_toks content pname url key
    have hpmE := projectMatch_emit pname (("GIT".data) :: ('"' :: url ++ ['"']) ::
      tailToks (searchRight stepBranchTag content) (searchRight stepRemote content)
        (searchRight stepFlag content)) hpn hpnc (by simp)
    have hgitE := gitE_git pname url _ _ _ hurlne hurlc hvrS hrrS hflS
    have hsrcE := gitE_source_none pname url _ _ _ hpnc hpnk hurlc hvrS hrrS hflS
    have hparseE : BundleLine.parse bl.rewrite_original =
        .ok (BundleLine.mkRecord bl.rewrite_original pname ("git".data)
          (BundleLinePart.mk ("GIT".data) false url (['"'])) key) := by
      rw [hE]
      simp only [BundleLine.parse, hpmE, hgitE, hsrcE, hkey]
      rfl
    refine ⟨_, hparseE, ?_⟩
    rw [rewrite_original_git_toks bl.rewrite_original pname url key, hE,
      gitE_bt pname url _ _ _ hpnc hpnk hurlc hvrS hrrS hflS,
      gitE_remote pname url _ _ _ hpnc hpnk hurlc hvrS hrrS hflS,
      gitE_flag pname url _ _ _ hpnc hpnk hurlc hvrS hrrS hflS]
  · have hpn : pname ≠ [] := by rw [hbl] at hname; exact hname
    have hpnc := projectMatch_sound content pname hpm
    have hpnk : noKwEnding pname := by rw [hbl] at hnk; exact hnk
    obtain ⟨hpne, hpathc⟩ := searchRight_values stepSource_sound content path hsrc
    have hpathk : noKwEnding path := by
      have h0 := hsp (by rw [hbl]; rfl)
      rw [hbl] at h0
      exact h0
    have hvrS : soundVrRaw (searchRight stepBranchTag content) := by
      intro q hq
      have hs := searchRight_values stepBranchTag_sound content q hq
      refine ⟨hs.1, hs.2.1, hs.2.2, ?_⟩
      have hv2 : bl.version_ref = some (BundleLinePart.mk q.1 false q.2 []) := by
        rw [hbl]
        show ((bundleTailFields content).2.1 : Option BundleLinePart) = _
        simp only [bundleTailFields, hq, Option.map_some']
      exact hvr _ hv2
    have hE : bl.rewrite_original =
        joinSp ((("ecbuild_bundle(".data) : Chars) :: ("PROJECT".data) :: pname ::
          ("SOURCE".data) :: path ::
          tailToks (searchRight stepBranchTag content)
            (searchRight stepRemote content) (searchRight stepFlag content)) := by
      rw [hbl]
      exact rewrite_original_source_toks content pname path
    have hpmE := projectMatch_emit pname (("SOURCE".data) :: path ::
      tailToks (searchRight stepBranchTag content) (searchRight stepRemote content)
        (searchRight stepFlag content)) hpn hpnc (by simp)
    have hgitE := sourceE_git_none pname path _ _ _ hpnc hpnk hpathc hpathk hvrS hrrS hflS
    have hsrcE := sourceE_source pname path _ _ _ hpne hpathc hpathk hvrS hrrS hflS
    have hparseE : BundleLine.parse bl.rewrite_original =
        .ok (BundleLine.mkRecord bl.rewrite_original pname ("source".data)
          (BundleLinePart.mk ("SOURCE".data) false path []) none) := by
      rw [hE]
      simp only [BundleLine.parse, hpmE, hgitE, hsrcE]
    refine ⟨_, hparseE, ?_⟩
    rw [rewrite_original_source_toks bl.rewrite_original pname path, hE,
      sourceE_bt pname path _ _ _ hpnc hpnk hpathc hpathk hvrS hrrS hflS,
      sourceE_remote pname path _ _ _ hpnc hpnk hpathc hpathk hvrS hrrS hflS,
      sourceE_flag pname path _ _ _ hpnc hpnk hpathc hpathk hvrS hrrS hflS]

def c7content : Chars :=
  ("ecbuild_bundle( PROJECT saber GIT \"https://github.com/jcsda/saber.git\" BRANCH develop UPDATE RECURSIVE )".data)

def c7bl : BundleLine := (BundleLine.parse c7content).toOption.getD defaultBundleLine

/-- Witness for the amended C7 at a typical declaration line: the
emitted normalization parses and re-emits identically. -/
theorem c7_reserialize_idempotent_witness :
    BundleLine.parse c7content = .ok c7bl ∧
      ∃ bl2, BundleLine.parse c7bl.rewrite_original = .ok bl2 ∧
        bl2.rewrite_original = c7bl.rewrite_original :=
  ⟨by rfl,
   c7_reserialize_idempotent c7content c7bl (by rfl) (by decide) (by decide)
     (by
       intro p hp2
       have h0 : c7bl.version_ref =
           some (BundleLinePart.mk ("BRANCH".data) false ("develop".data) []) := by rfl
       rw [h0] at hp2
       cases hp2
       decide)
     (fun h => absurd h (by decide))⟩
